import Mathlib

/-!
A fixed-size worker pool over a bounded ring buffer (`thread_pool`).

Shallow embedding of `src/thread_pool.c`.

Modelling conventions.
* The platform is x86-64 Linux with glibc (the sources use `malloc.h` and
  `gettid`): `size_t` has 64 bits, `int` and `unsigned int` have 32 bits,
  `SEM_VALUE_MAX` is `INT_MAX`.
* Pointers (`tp_func_t`, `void *`) are natural numbers, `0` is `NULL`.
* `size_t` arithmetic wraps modulo `2^64`; the value handed to `sem_init` is
  converted to `unsigned int`; the loop counter `int i` must not exceed
  `INT_MAX`.
* A POSIX semaphore is its counter.  `sem_wait` on a zero counter suspends the
  caller (the sequential functions return `none`, the step relation has no
  transition) or fails, for instance with `EINTR`; whether a call fails is an
  input of the model.  `sem_post` fails and leaves the counter alone at
  `SEM_VALUE_MAX`.  The mutex operations succeed.
* `pthread_create` may fail; which worker threads exist is an input of the
  model.
* `assert` is enabled (no `NDEBUG`): a failed assertion ends the program.
* A critical section guarded by `queue_rd_mtx` or `queue_wr_mtx` is one atomic
  step; the mutexes themselves carry no further state.
* `tp->queue` is a pointer into the allocated block: it is modelled as a map
  from slot index to slot content, the initial content being whatever `malloc`
  returned.  When the size computed at lines 116-118 has wrapped, fewer than
  `queue_size` slots lie inside the block and the model follows the program
  only while the cursors stay inside it; results about all schedules assume
  `queue_size ≤ SEM_VALUE_MAX`, which excludes the wrap.
-/

namespace ThreadPool

/-! ## Platform constants -/

/-- Number of values of `size_t`. -/
def SIZE_RANGE : Nat := 2 ^ 64

/-- Number of values of `unsigned int`. -/
def UINT_RANGE : Nat := 2 ^ 32

/-- Largest `int`. -/
def INT_MAX : Nat := 2147483647

/-- Largest value of a semaphore. -/
def SEM_VALUE_MAX : Nat := 2147483647

/-- The value of `sizeof(thread_pool_t)`. -/
def sizeof_thread_pool_t : Nat := 192

/-- The value of `sizeof(tp_thread_t)`. -/
def sizeof_tp_thread_t : Nat := 32

/-- The value of `sizeof(tp_task_t)`. -/
def sizeof_tp_task_t : Nat := 16

/-! ## Data model (`thread_pool.c`, lines 33-69) -/

/-- A queue slot: `tp_task_t`. -/
structure tp_task_t where
  func : Nat
  arg : Nat
deriving DecidableEq, Repr

/-- A worker record: `tp_thread_t`.  The back pointer `thread_pool` and the
thread handle `thr` carry no information in the model. -/
structure tp_thread_t where
  tid : Int
  user_data : Nat
deriving DecidableEq, Repr

/-- The pool: `struct thread_pool_s`. -/
structure thread_pool_s where
  pool_size : Nat
  queue_size : Nat
  thr_pool : List tp_thread_t
  queue_rd_pos : Nat
  queue_wr_pos : Nat
  sem_queue : Nat
  sem_queue_free : Nat
  queue : Nat → tp_task_t

/-! ## Semaphore primitives -/

/-- The call `sem_init(sem, 0, value)`: the counter it sets, `none` when it
fails with `EINVAL`.  The argument is converted to `unsigned int`. -/
def sem_init (value : Nat) : Option Nat :=
  if SEM_VALUE_MAX < value % UINT_RANGE then none else some (value % UINT_RANGE)

/-- The call `sem_trywait`: status and new counter. -/
def sem_trywait (v : Nat) : Int × Nat :=
  if v = 0 then (-1, v) else (0, v - 1)

/-- The call `sem_wait`: `none` when the caller has to suspend, otherwise
status and new counter.  With `fails` the call returns -1 and leaves the
counter alone. -/
def sem_wait (v : Nat) (fails : Bool) : Option (Int × Nat) :=
  if fails then some (-1, v)
  else if v = 0 then none
  else some (0, v - 1)

/-- The call `sem_post`: at `SEM_VALUE_MAX` it fails and changes nothing. -/
def sem_post (v : Nat) : Nat :=
  if v < SEM_VALUE_MAX then v + 1 else v

/-! ## `tp_init` (lines 110-152) -/

/-- Outcome of `tp_init`: a failed `assert`, the `NULL` handle of a failed
`malloc`, a pool, or `undefined` when the program leaves the behaviour the
model describes: the counter `int i` of line 139 overflows, the worker
records do not fit into the block, or `sem_init` fails at line 133 and leaves
the free-count semaphore uninitialised. -/
inductive InitResult where
  | assert_failed
  | null
  | pool (tp : thread_pool_s)
  | undefined

/-- The argument of `malloc` at lines 116-118, computed in `size_t`. -/
def malloc_size (pool_size queue_size : Nat) : Nat :=
  (sizeof_thread_pool_t + pool_size * sizeof_tp_thread_t + queue_size * sizeof_tp_task_t)
    % SIZE_RANGE

/-- The function `tp_init`.  The argument `block` is the outcome of `malloc`:
`none` for `NULL`, otherwise the indeterminate initial content of the slots.
With `pool_size ≤ INT_MAX` the counter `int i` of line 139 runs from 0 to
`pool_size - 1` without overflow, so that `t->tid = i` stores `i` itself.
The threads started at line 145 are not part of the pool; see
`init_state_of`. -/
def tp_init (pool_size queue_size : Nat) (block : Option (Nat → tp_task_t)) : InitResult :=
  if pool_size = 0 then InitResult.assert_failed
  else if queue_size = 0 then InitResult.assert_failed
  else
    match block with
    | none => InitResult.null
    | some mem =>
      if INT_MAX < pool_size then InitResult.undefined
      else if malloc_size pool_size queue_size <
          sizeof_thread_pool_t + pool_size * sizeof_tp_thread_t then InitResult.undefined
      else
        match sem_init 0, sem_init queue_size with
        | some occupied, some free =>
          InitResult.pool
            { pool_size := pool_size
              queue_size := queue_size
              thr_pool := (List.range pool_size).map
                (fun (i : Nat) => { tid := Int.ofNat i, user_data := 0 })
              queue_rd_pos := 0
              queue_wr_pos := 0
              sem_queue := occupied
              sem_queue_free := free
              queue := mem }
        | _, _ => InitResult.undefined

/-! ## The pieces of `tp_add_task` (lines 154-181) -/

/-- Lines 162-165: take a free-slot permit.  Result `none`: suspended in
`sem_wait`; otherwise the status `ret` and the pool.  The flag `fails` tells
whether a blocking `sem_wait` fails. -/
def add_acquire (tp : thread_pool_s) (no_block : Int) (fails : Bool) :
    Option (Int × thread_pool_s) :=
  if no_block ≠ 0 then
    let r := sem_trywait tp.sem_queue_free
    some (r.1, { tp with sem_queue_free := r.2 })
  else
    match sem_wait tp.sem_queue_free fails with
    | none => none
    | some r => some (r.1, { tp with sem_queue_free := r.2 })

/-- Lines 169-175: the critical section under `queue_wr_mtx`. -/
def enqueue (tp : thread_pool_s) (func arg : Nat) : thread_pool_s :=
  let q := Function.update tp.queue tp.queue_wr_pos { func := func, arg := arg }
  let wr := tp.queue_wr_pos + 1
  { tp with queue := q, queue_wr_pos := if wr = tp.queue_size then 0 else wr }

/-- Line 178: release an occupied-slot permit. -/
def add_release (tp : thread_pool_s) : thread_pool_s :=
  { tp with sem_queue := sem_post tp.sem_queue }

/-- The function `tp_add_task`, run without interruption. -/
def tp_add_task (tp : thread_pool_s) (func arg : Nat) (no_block : Int) (fails : Bool) :
    Option (Int × thread_pool_s) :=
  match add_acquire tp no_block fails with
  | none => none
  | some (ret, tp1) =>
    if ret = 0 then some (ret, add_release (enqueue tp1 func arg))
    else some (ret, tp1)

/-! ## The pieces of `worker_thread` (lines 71-105) -/

/-- Line 82: take an occupied-slot permit; the status of `sem_wait` is
ignored, so after a failed call the worker goes on without a permit. -/
def worker_wait (tp : thread_pool_s) (fails : Bool) : Option thread_pool_s :=
  match sem_wait tp.sem_queue fails with
  | none => none
  | some r => some { tp with sem_queue := r.2 }

/-- Lines 85-90: the critical section under `queue_rd_mtx`; the first
component is the index of the slot `task` points to. -/
def worker_claim (tp : thread_pool_s) : Nat × thread_pool_s :=
  let task := tp.queue_rd_pos
  let rd := tp.queue_rd_pos + 1
  (task, { tp with queue_rd_pos := if rd = tp.queue_size then 0 else rd })

/-- Lines 93-94: read `task->func` and `task->arg`. -/
def worker_load (tp : thread_pool_s) (task : Nat) : tp_task_t :=
  tp.queue task

/-- Line 95: release a free-slot permit. -/
def worker_release (tp : thread_pool_s) : thread_pool_s :=
  { tp with sem_queue_free := sem_post tp.sem_queue_free }

/-- One uninterrupted consumption, lines 82-95: the task taken and the pool. -/
def worker_take (tp : thread_pool_s) (fails : Bool) : Option (tp_task_t × thread_pool_s) :=
  match worker_wait tp fails with
  | none => none
  | some tp1 =>
    let c := worker_claim tp1
    some (worker_load c.2 c.1, worker_release c.2)

/-! ## The interleaving model

Threads: the `pool_size` workers, any number of user threads inside
`tp_add_task`, and the thread that calls `tp_done`.  Every semaphore
operation, every critical section and the worker's read of its slot is one
step. -/

/-- Where a user thread stands inside `tp_add_task` once it holds a permit. -/
inductive AddPc where
  | acquired (func arg : Nat)
  | written (func arg : Nat)
deriving DecidableEq, Repr

/-- Where a worker stands inside `worker_thread`; `absent` is a worker whose
`pthread_create` failed. -/
inductive WorkerPc where
  | top
  | waited
  | claimed (task : Nat)
  | loaded (t_func t_arg : Nat)
  | released (t_func t_arg : Nat)
  | exited
  | absent
deriving DecidableEq, Repr

/-- Where the caller of `tp_done` stands (lines 183-202). -/
inductive DonePc where
  | not_called
  | adding (i : Nat)
  | add_acquired (i : Nat)
  | add_written (i : Nat)
  | joining (i : Nat)
  | returned
deriving DecidableEq, Repr

/-- A call made at line 102. -/
structure Invocation where
  func : Nat
  arg : Nat
  tid : Int
  user_data : Nat
deriving DecidableEq, Repr

/-- The state of the program.  The fields after `shutdown` are history
variables: they record what happened and influence no transition.
`accepted`: the tasks whose submission by a user thread returned 0;
`invoked`: the calls made at line 102; `handled`: worker index and task of
every pass through line 98; `sentinels`: the tasks written by `tp_done`;
`pending i`: slot `i` holds a task that was written and not yet read;
`overflow`: some write went into a pending slot; `underflow`: some read found
a slot that was not pending; `wait_failures`: the failed calls of `sem_wait`
at line 82; `done_failures`: the calls of `tp_add_task` at line 191 that
returned a nonzero status. -/
structure State where
  tp : thread_pool_s
  workers : List WorkerPc
  adds : List AddPc
  shutdown : DonePc
  accepted : List tp_task_t
  invoked : List Invocation
  handled : List (Nat × tp_task_t)
  sentinels : List tp_task_t
  pending : Nat → Bool
  overflow : Bool
  underflow : Bool
  wait_failures : Nat
  done_failures : Nat

/-- The state right after `tp_init` returns the pool `tp`; `created i` tells
whether the call of `pthread_create` for record `i` (line 145) succeeded.  A
created worker stands at the top of its loop. -/
def init_state_of (tp : thread_pool_s) (created : Nat → Bool) : State :=
  { tp := tp
    workers := (List.range tp.thr_pool.length).map
      (fun i => if created i then WorkerPc.top else WorkerPc.absent)
    adds := []
    shutdown := DonePc.not_called
    accepted := []
    invoked := []
    handled := []
    sentinels := []
    pending := fun _ => false
    overflow := false
    underflow := false
    wait_failures := 0
    done_failures := 0 }

/-- The state right after `tp_init` returns the pool `tp` when every call of
`pthread_create` succeeded. -/
def init_state (tp : thread_pool_s) : State :=
  init_state_of tp (fun _ => true)

/-- The transitions.  The last three are the failures of `sem_wait`: in a
blocking call of a user thread, at line 82 of a worker, and in a call made by
`tp_done`. -/
inductive Action where
  | add_begin (func arg : Nat) (no_block : Int)
  | add_write (k : Nat)
  | add_post (k : Nat)
  | w_wait (i : Nat)
  | w_claim (i : Nat)
  | w_load (i : Nat)
  | w_post (i : Nat)
  | w_dispatch (i : Nat)
  | done_call
  | done_wait
  | done_write
  | done_post
  | done_loop_end
  | done_join
  | done_free
  | add_fail (func arg : Nat)
  | w_wait_fail (i : Nat)
  | done_wait_fail
deriving DecidableEq, Repr

/-- History update for a write into the slot at the write cursor. -/
def note_write (s : State) (tp1 : thread_pool_s) : State :=
  { s with
    tp := tp1
    overflow := s.overflow || s.pending s.tp.queue_wr_pos
    pending := Function.update s.pending s.tp.queue_wr_pos true }

/-- A user thread enters `tp_add_task` and runs lines 162-167. -/
def begin_add (s : State) (func arg : Nat) (no_block : Int) (fails : Bool) : Option State :=
  match add_acquire s.tp no_block fails with
  | none => none
  | some (ret, tp1) =>
    if ret = 0 then
      some { s with tp := tp1, adds := s.adds ++ [AddPc.acquired func arg] }
    else some { s with tp := tp1 }

/-- One step of one thread; `none` when the step is not enabled. -/
def step (s : State) : Action → Option State
  | Action.add_begin func arg no_block => begin_add s func arg no_block false
  | Action.add_fail func arg => begin_add s func arg 0 true
  | Action.add_write k =>
    match s.adds.get? k with
    | some (AddPc.acquired func arg) =>
      some { note_write s (enqueue s.tp func arg) with
             adds := s.adds.set k (AddPc.written func arg) }
    | _ => none
  | Action.add_post k =>
    match s.adds.get? k with
    | some (AddPc.written func arg) =>
      some { s with
             tp := add_release s.tp
             adds := s.adds.eraseIdx k
             accepted := s.accepted ++ [{ func := func, arg := arg }] }
    | _ => none
  | Action.w_wait i =>
    match s.workers.get? i with
    | some WorkerPc.top =>
      match worker_wait s.tp false with
      | none => none
      | some tp1 => some { s with tp := tp1, workers := s.workers.set i WorkerPc.waited }
    | _ => none
  | Action.w_wait_fail i =>
    match s.workers.get? i with
    | some WorkerPc.top =>
      match worker_wait s.tp true with
      | none => none
      | some tp1 =>
        some { s with tp := tp1, workers := s.workers.set i WorkerPc.waited
                      wait_failures := s.wait_failures + 1 }
    | _ => none
  | Action.w_claim i =>
    match s.workers.get? i with
    | some WorkerPc.waited =>
      let c := worker_claim s.tp
      some { s with tp := c.2, workers := s.workers.set i (WorkerPc.claimed c.1) }
    | _ => none
  | Action.w_load i =>
    match s.workers.get? i with
    | some (WorkerPc.claimed task) =>
      let t := worker_load s.tp task
      some { s with
             workers := s.workers.set i (WorkerPc.loaded t.func t.arg)
             underflow := s.underflow || !(s.pending task)
             pending := Function.update s.pending task false }
    | _ => none
  | Action.w_post i =>
    match s.workers.get? i with
    | some (WorkerPc.loaded t_func t_arg) =>
      some { s with
             tp := worker_release s.tp
             workers := s.workers.set i (WorkerPc.released t_func t_arg) }
    | _ => none
  | Action.w_dispatch i =>
    match s.workers.get? i, s.tp.thr_pool.get? i with
    | some (WorkerPc.released t_func t_arg), some thr =>
      if t_func = 0 then
        some { s with
               workers := s.workers.set i WorkerPc.exited
               handled := s.handled ++ [(i, { func := t_func, arg := t_arg })] }
      else
        some { s with
               workers := s.workers.set i WorkerPc.top
               handled := s.handled ++ [(i, { func := t_func, arg := t_arg })]
               invoked := s.invoked ++
                 [{ func := t_func, arg := t_arg, tid := thr.tid, user_data := thr.user_data }] }
    | _, _ => none
  | Action.done_call =>
    match s.shutdown with
    | DonePc.not_called => some { s with shutdown := DonePc.adding 0 }
    | _ => none
  | Action.done_wait =>
    match s.shutdown with
    | DonePc.adding i =>
      if i < s.tp.pool_size then
        match add_acquire s.tp 0 false with
        | none => none
        | some (_, tp1) => some { s with tp := tp1, shutdown := DonePc.add_acquired i }
      else none
    | _ => none
  | Action.done_wait_fail =>
    match s.shutdown with
    | DonePc.adding i =>
      if i < s.tp.pool_size then
        match add_acquire s.tp 0 true with
        | none => none
        | some (_, tp1) =>
          some { s with tp := tp1, shutdown := DonePc.adding (i + 1)
                        done_failures := s.done_failures + 1 }
      else none
    | _ => none
  | Action.done_write =>
    match s.shutdown with
    | DonePc.add_acquired i =>
      some { note_write s (enqueue s.tp 0 0) with
             shutdown := DonePc.add_written i
             sentinels := s.sentinels ++ [{ func := 0, arg := 0 }] }
    | _ => none
  | Action.done_post =>
    match s.shutdown with
    | DonePc.add_written i =>
      some { s with tp := add_release s.tp, shutdown := DonePc.adding (i + 1) }
    | _ => none
  | Action.done_loop_end =>
    match s.shutdown with
    | DonePc.adding i =>
      if i < s.tp.pool_size then none else some { s with shutdown := DonePc.joining 0 }
    | _ => none
  | Action.done_join =>
    match s.shutdown with
    | DonePc.joining i =>
      if i < s.tp.pool_size then
        match s.workers.get? i with
        | some WorkerPc.exited => some { s with shutdown := DonePc.joining (i + 1) }
        | _ => none
      else none
    | _ => none
  | Action.done_free =>
    match s.shutdown with
    | DonePc.joining i =>
      if i < s.tp.pool_size then none else some { s with shutdown := DonePc.returned }
    | _ => none

/-- Run a schedule; `none` when one of its steps is not enabled. -/
def run (s : State) : List Action → Option State
  | [] => some s
  | a :: rest =>
    match step s a with
    | none => none
    | some s1 => run s1 rest

/-- The regular use of the pool: no call of `sem_wait` fails, no task with a
`NULL` function is submitted, no submission starts once `tp_done` has been
called, and `tp_done` is called when every submission has returned. -/
def regular (s : State) : Action → Bool
  | Action.add_begin func _ _ => decide (func ≠ 0) && decide (s.shutdown = DonePc.not_called)
  | Action.add_fail _ _ => false
  | Action.w_wait_fail _ => false
  | Action.done_wait_fail => false
  | Action.done_call => s.adds.isEmpty
  | _ => true

/-- Run a schedule of regular steps; `none` when one of its steps is not
enabled or not regular. -/
def run_regular (s : State) : List Action → Option State
  | [] => some s
  | a :: rest =>
    if regular s a then
      match step s a with
      | none => none
      | some s1 => run_regular s1 rest
    else none

/-- A thread issuing calls of `tp_add_task` one after the other while no other
thread runs; each call comes with its task, its `no_block` flag and whether a
blocking `sem_wait` fails.  The result is the statuses returned and the final
pool; `none` when one of the calls suspends for ever. -/
def add_all (tp : thread_pool_s) :
    List (tp_task_t × Int × Bool) → Option (List Int × thread_pool_s)
  | [] => some ([], tp)
  | c :: rest =>
    match tp_add_task tp c.1.func c.1.arg c.2.1 c.2.2 with
    | none => none
    | some (ret, tp1) =>
      match add_all tp1 rest with
      | none => none
      | some (rets, tp2) => some (ret :: rets, tp2)

/-! ## State predicates and measures -/

/-- Both cursors index the slot array. -/
def CursorsOk (s : State) : Prop :=
  s.tp.queue_rd_pos < s.tp.queue_size ∧ s.tp.queue_wr_pos < s.tp.queue_size

/-- Permits held by a worker between its `sem_wait` and its `sem_post`. -/
def held_w : WorkerPc → Nat
  | WorkerPc.waited => 1
  | WorkerPc.claimed _ => 1
  | WorkerPc.loaded _ _ => 1
  | _ => 0

/-- Permit held by the caller of `tp_done` inside one of its submissions. -/
def held_d : DonePc → Nat
  | DonePc.add_acquired _ => 1
  | DonePc.add_written _ => 1
  | _ => 0

/-- Number of threads standing between the two semaphore operations of a
submission or of a consumption. -/
def in_flight (s : State) : Nat :=
  s.adds.length + held_d s.shutdown + (s.workers.map held_w).sum

/-- Permit conservation: every permit is in one of the two semaphores or in
the hands of a thread; every failed `sem_wait` of a worker adds one.  The
equation holds as long as no `sem_post` has met `SEM_VALUE_MAX`. -/
def PermitsOk (s : State) : Prop :=
  s.tp.queue_size + s.wait_failures ≤ SEM_VALUE_MAX →
    s.tp.sem_queue + s.tp.sem_queue_free + in_flight s = s.tp.queue_size + s.wait_failures

/-- Indicator of a worker that has returned from `worker_thread`. -/
def is_exited : WorkerPc → Nat
  | WorkerPc.exited => 1
  | _ => 0

/-- Indicator that worker `j` exists and has returned. -/
def exited_at (l : List WorkerPc) (j : Nat) : Nat :=
  match l.get? j with
  | some pc => is_exited pc
  | none => 0

/-- Number of `NULL`-function tasks taken through line 98 by all workers. -/
def null_handled (s : State) : Nat :=
  (s.handled.filter (fun p => p.2.func == 0)).length

/-- Number of `NULL`-function tasks taken through line 98 by worker `i`. -/
def nulls_of (s : State) (i : Nat) : Nat :=
  (s.handled.filter (fun p => p.1 == i && p.2.func == 0)).length

/-- Exit bookkeeping: a worker has returned exactly when it took a
`NULL`-function task through line 98, and it took at most one. -/
def ExitOk (s : State) : Prop :=
  null_handled s = (s.workers.map is_exited).sum ∧
  ∀ j, nulls_of s j = exited_at s.workers j

/-- Number of slots written by `tp_done` when its caller stands at `pc`. -/
def sent_count (P : Nat) : DonePc → Nat
  | DonePc.not_called => 0
  | DonePc.adding i => i
  | DonePc.add_acquired i => i
  | DonePc.add_written i => i + 1
  | DonePc.joining _ => P
  | DonePc.returned => P

/-- Range of the loop counter of line 190. -/
def DoneOk (P : Nat) : DonePc → Prop
  | DonePc.adding i => i ≤ P
  | DonePc.add_acquired i => i < P
  | DonePc.add_written i => i < P
  | _ => True

/-- What `tp_done` has written so far: one `NULL` task per completed
iteration of its first loop, those whose `tp_add_task` failed apart. -/
def SentinelsOk (s : State) : Prop :=
  (∀ t ∈ s.sentinels, t = { func := 0, arg := 0 }) ∧
  s.sentinels.length + s.done_failures = sent_count s.tp.pool_size s.shutdown ∧
  DoneOk s.tp.pool_size s.shutdown

/-! ## Regular runs: counting -/

/-- Worker between line 82 and line 98 (a wait done, not yet dispatched). -/
def w_waits : WorkerPc → Nat
  | WorkerPc.waited => 1
  | WorkerPc.claimed _ => 1
  | WorkerPc.loaded _ _ => 1
  | WorkerPc.released _ _ => 1
  | _ => 0

/-- Worker between line 95 and line 98 (free permit posted, not yet
dispatched). -/
def w_posts : WorkerPc → Nat
  | WorkerPc.released _ _ => 1
  | _ => 0

/-- A whole operation on the queue: a call of `tp_add_task`, or one
consumption by a worker (lines 82-95), run without interruption and without
a failure of `sem_wait`. -/
inductive QOp where
  | submit (func arg : Nat) (no_block : Int)
  | take
deriving DecidableEq, Repr

/-- What an observer sees of a run: the tasks accepted (status 0) and the
tasks handed to workers, both in order. -/
structure QTrace where
  accepted : List tp_task_t
  handed : List tp_task_t
deriving DecidableEq, Repr

/-- One operation on the pool; `none` when the caller would suspend. -/
def queue_op (tp : thread_pool_s) (tr : QTrace) : QOp → Option (QTrace × thread_pool_s)
  | QOp.submit func arg no_block =>
    match tp_add_task tp func arg no_block false with
    | none => none
    | some (ret, tp1) =>
      if ret = 0 then
        some ({ tr with accepted := tr.accepted ++ [{ func := func, arg := arg }] }, tp1)
      else some (tr, tp1)
  | QOp.take =>
    match worker_take tp false with
    | none => none
    | some (t, tp1) => some ({ tr with handed := tr.handed ++ [t] }, tp1)

/-- A sequence of operations on the pool. -/
def queue_run (tp : thread_pool_s) (tr : QTrace) : List QOp → Option (QTrace × thread_pool_s)
  | [] => some (tr, tp)
  | op :: rest =>
    match queue_op tp tr op with
    | none => none
    | some (tr1, tp1) => queue_run tp1 tr1 rest

/-- Modelled on the words of the specification, for comparison with the code:
a bounded FIFO list of at most `Q` pending tasks.  A submission appends at the
tail when there is room, is refused when non-blocking, suspends otherwise; a
consumption removes the head and suspends on the empty list. -/
def fifo_op (Q : Nat) (items : List tp_task_t) (tr : QTrace) :
    QOp → Option (QTrace × List tp_task_t)
  | QOp.submit func arg no_block =>
    if items.length < Q then
      some ({ tr with accepted := tr.accepted ++ [{ func := func, arg := arg }] },
            items ++ [{ func := func, arg := arg }])
    else if no_block ≠ 0 then some (tr, items)
    else none
  | QOp.take =>
    match items with
    | [] => none
    | t :: rest => some ({ tr with handed := tr.handed ++ [t] }, rest)

/-- A sequence of operations on the bounded FIFO list. -/
def fifo_run (Q : Nat) (items : List tp_task_t) (tr : QTrace) :
    List QOp → Option (QTrace × List tp_task_t)
  | [] => some (tr, items)
  | op :: rest =>
    match fifo_op Q items tr op with
    | none => none
    | some (tr1, items1) => fifo_run Q items1 tr1 rest

/-- The pending tasks of a pool: the slots from the read cursor on, as many as
there are occupied-slot permits. -/
def contents (tp : thread_pool_s) : List tp_task_t :=
  (List.range tp.sem_queue).map (fun k => tp.queue ((tp.queue_rd_pos + k) % tp.queue_size))

/-- The pool, between operations, represents a bounded FIFO list. -/
def Represents (Q : Nat) (tp : thread_pool_s) (items : List tp_task_t) : Prop :=
  Q ≤ SEM_VALUE_MAX ∧ 0 < Q ∧ tp.queue_size = Q ∧ tp.queue_rd_pos < Q ∧
  tp.queue_wr_pos = (tp.queue_rd_pos + tp.sem_queue) % Q ∧
  tp.sem_queue + tp.sem_queue_free = Q ∧ items = contents tp

/-! ## Schedules and inputs -/

/-- A whole blocking call `tp_add_task(tp, func, arg, 0)` by a user thread,
no other call being in progress. -/
def sched_submit (func arg : Nat) : List Action :=
  [Action.add_begin func arg 0, Action.add_write 0, Action.add_post 0]

/-- One whole iteration of the loop of worker `i`. -/
def sched_consume (i : Nat) : List Action :=
  [Action.w_wait i, Action.w_claim i, Action.w_load i, Action.w_post i, Action.w_dispatch i]

/-- Repeat a piece of schedule, the piece depending on the round. -/
def sched_rounds (piece : Nat → List Action) : Nat → List Action
  | 0 => []
  | n + 1 => sched_rounds piece n ++ piece n

/-- The thread that calls `tp_done` on a pool of `P` workers, the workers
taking the sentinels in between its two loops. -/
def sched_shutdown (P : Nat) : List Action :=
  [Action.done_call] ++
  sched_rounds (fun _ => [Action.done_wait, Action.done_write, Action.done_post]) P ++
  sched_rounds sched_consume P ++
  [Action.done_loop_end] ++
  sched_rounds (fun _ => [Action.done_join]) P ++
  [Action.done_free]

/-- Slots as `malloc` might return them: all zero. -/
def zero_block : Nat → tp_task_t := fun _ => { func := 0, arg := 0 }

/-- Two workers, two slots, one producer submitting three tasks and then
calling `tp_done`.  Worker 0 is preempted between line 90 and line 93. -/
def race_schedule : List Action :=
  sched_submit 7 10 ++ sched_submit 7 11 ++
  [Action.w_wait 0, Action.w_claim 0] ++
  sched_consume 1 ++
  sched_submit 7 12 ++
  [Action.w_load 0, Action.w_post 0, Action.w_dispatch 0] ++
  sched_consume 1 ++
  sched_shutdown 2

/-- The scenario of `test.c`: five workers, five slots, 32 blocking
submissions by one thread, then `tp_done`.  Worker 0 is preempted between
line 90 and line 93 while worker 1 runs. -/
def test_schedule : List Action :=
  sched_rounds (fun i => sched_submit 7 i) 5 ++
  [Action.w_wait 0, Action.w_claim 0] ++
  sched_consume 1 ++
  sched_submit 7 5 ++
  [Action.w_load 0, Action.w_post 0, Action.w_dispatch 0] ++
  sched_rounds (fun k => sched_submit 7 (6 + k) ++ sched_consume 1) 26 ++
  sched_rounds (fun _ => sched_consume 1) 4 ++
  sched_shutdown 5

/-- Prefix of `race_schedule` up to the permit taken by the third submission. -/
def overflow_schedule : List Action :=
  sched_submit 7 10 ++ sched_submit 7 11 ++
  [Action.w_wait 0, Action.w_claim 0] ++
  sched_consume 1 ++
  [Action.add_begin 7 12 0]

/-- A queue size that does not fit an `unsigned int`. -/
def huge_queue_size : Nat := 2 ^ 60 + 3

/-- Slots as `malloc` might return them: arbitrary content. -/
def garbage_block : Nat → tp_task_t := fun i => { func := i + 3, arg := 2 * i }

/-- A failure of `sem_wait`. -/
def is_failure : Action → Bool
  | Action.add_fail _ _ => true
  | Action.w_wait_fail _ => true
  | Action.done_wait_fail => true
  | _ => false

theorem sem_init_small {v : Nat} (h : v ≤ SEM_VALUE_MAX) : sem_init v = some v := by
  unfold SEM_VALUE_MAX at h
  have h1 : v % UINT_RANGE = v := Nat.mod_eq_of_lt (by unfold UINT_RANGE; omega)
  unfold sem_init
  rw [h1]
  have h2 : ¬ SEM_VALUE_MAX < v := by unfold SEM_VALUE_MAX; omega
  simp only [h2, if_false]

theorem sem_post_lt {v : Nat} (h : v < SEM_VALUE_MAX) : sem_post v = v + 1 := by
  simp only [sem_post, h, if_true]

theorem sem_post_le (v : Nat) : sem_post v ≤ v + 1 := by
  unfold sem_post
  split_ifs <;> omega

theorem tp_init_pool_fields {P Q : Nat} {block : Option (Nat → tp_task_t)} {tp : thread_pool_s}
    (h : tp_init P Q block = InitResult.pool tp) :
    0 < P ∧ 0 < Q ∧ P ≤ INT_MAX ∧ tp.pool_size = P ∧ tp.queue_size = Q ∧
    tp.queue_rd_pos = 0 ∧ tp.queue_wr_pos = 0 ∧ tp.sem_queue = 0 ∧
    tp.sem_queue_free = Q % UINT_RANGE ∧ Q % UINT_RANGE ≤ SEM_VALUE_MAX ∧
    tp.thr_pool = (List.range P).map (fun (i : Nat) => { tid := Int.ofNat i, user_data := 0 }) := by
  unfold tp_init at h
  split at h
  · cases h
  · split at h
    · cases h
    · cases block with
      | none => cases h
      | some mem =>
        simp only at h
        split at h
        · cases h
        · split at h
          · cases h
          · rename_i hP hQ hmax _
            have h0 : sem_init 0 = some 0 := sem_init_small (Nat.zero_le _)
            rw [h0] at h
            by_cases hs : SEM_VALUE_MAX < Q % UINT_RANGE
            · simp [sem_init, hs] at h
            · simp only [sem_init, hs, if_false, InitResult.pool.injEq] at h
              subst h
              refine ⟨by omega, by omega, by omega, rfl, rfl, rfl, rfl, rfl, rfl, by omega, rfl⟩

theorem tp_init_bounded {P Q : Nat} (block : Nat → tp_task_t)
    (hP : 0 < P) (hP2 : P ≤ INT_MAX) (hQ : 0 < Q) (hQ2 : Q ≤ SEM_VALUE_MAX) :
    tp_init P Q (some block) = InitResult.pool
      { pool_size := P, queue_size := Q,
        thr_pool := (List.range P).map
          (fun (i : Nat) => { tid := Int.ofNat i, user_data := 0 }),
        queue_rd_pos := 0, queue_wr_pos := 0, sem_queue := 0, sem_queue_free := Q,
        queue := block } := by
  have hP0 : P ≠ 0 := by omega
  have hQ0 : Q ≠ 0 := by omega
  have hP1 : ¬ INT_MAX < P := by omega
  have hfit : ¬ malloc_size P Q < sizeof_thread_pool_t + P * sizeof_tp_thread_t := by
    unfold INT_MAX at hP2
    unfold SEM_VALUE_MAX at hQ2
    unfold malloc_size sizeof_thread_pool_t sizeof_tp_thread_t sizeof_tp_task_t SIZE_RANGE
    rw [Nat.mod_eq_of_lt (by omega)]
    omega
  simp only [tp_init, hP0, hQ0, hP1, hfit, if_false, sem_init_small (Nat.zero_le _),
    sem_init_small hQ2]

theorem tp_init_free_of_bounded {P Q : Nat} {block : Option (Nat → tp_task_t)}
    {tp : thread_pool_s} (h : tp_init P Q block = InitResult.pool tp)
    (hQ : Q ≤ SEM_VALUE_MAX) : tp.sem_queue_free = Q := by
  obtain ⟨_, _, _, _, _, _, _, _, hf, _, _⟩ := tp_init_pool_fields h
  rw [hf]
  unfold SEM_VALUE_MAX at hQ
  exact Nat.mod_eq_of_lt (by unfold UINT_RANGE; omega)

theorem add_acquire_cases {tp tp1 : thread_pool_s} {nb ret : Int} {fails : Bool}
    (h : add_acquire tp nb fails = some (ret, tp1)) :
    (ret = 0 ∧ 0 < tp.sem_queue_free ∧
      tp1 = { tp with sem_queue_free := tp.sem_queue_free - 1 } ∧ (nb = 0 → fails = false)) ∨
    (ret = -1 ∧ tp1 = tp ∧
      ((nb ≠ 0 ∧ tp.sem_queue_free = 0) ∨ (nb = 0 ∧ fails = true))) := by
  unfold add_acquire at h
  split at h
  · rename_i hnb
    simp only [sem_trywait, Option.some.injEq, Prod.mk.injEq] at h
    obtain ⟨h1, h2⟩ := h
    by_cases hz : tp.sem_queue_free = 0
    · right
      simp only [hz, if_true] at h1 h2
      refine ⟨h1.symm, ?_, Or.inl ⟨hnb, hz⟩⟩
      rw [← h2]
      cases tp
      simp only at hz
      simp [hz]
    · left
      simp only [hz, if_false] at h1 h2
      exact ⟨h1.symm, by omega, h2.symm, fun e => absurd e hnb⟩
  · rename_i hnb
    have hnb0 : nb = 0 := by
      by_contra hc
      exact hnb hc
    cases fails with
    | true =>
      right
      simp only [sem_wait, if_true, Option.some.injEq, Prod.mk.injEq] at h
      exact ⟨h.1.symm, h.2.symm, Or.inr ⟨hnb0, rfl⟩⟩
    | false =>
      simp only [sem_wait, Bool.false_eq_true, if_false] at h
      by_cases hz : tp.sem_queue_free = 0
      · simp [hz] at h
      · left
        simp only [hz, if_false, Option.some.injEq, Prod.mk.injEq] at h
        exact ⟨h.1.symm, by omega, h.2.symm, fun _ => rfl⟩

theorem worker_wait_cases {tp tp1 : thread_pool_s} (h : worker_wait tp false = some tp1) :
    0 < tp.sem_queue ∧ tp1 = { tp with sem_queue := tp.sem_queue - 1 } := by
  unfold worker_wait sem_wait at h
  by_cases hz : tp.sem_queue = 0
  · simp [hz] at h
  · simp only [Bool.false_eq_true, hz, if_false, Option.some.injEq] at h
    exact ⟨by omega, h.symm⟩

theorem worker_wait_fails (tp : thread_pool_s) : worker_wait tp true = some tp := by
  simp [worker_wait, sem_wait]

/-! ## The transitions, one by one -/

theorem begin_add_cases {s s1 : State} {func arg : Nat} {nb : Int} {fails : Bool}
    (h : begin_add s func arg nb fails = some s1) :
    (0 < s.tp.sem_queue_free ∧ (nb = 0 → fails = false) ∧
      s1 = { s with tp := { s.tp with sem_queue_free := s.tp.sem_queue_free - 1 }
                    adds := s.adds ++ [AddPc.acquired func arg] }) ∨
    (((nb ≠ 0 ∧ s.tp.sem_queue_free = 0) ∨ (nb = 0 ∧ fails = true)) ∧ s1 = s) := by
  simp only [begin_add] at h
  split at h
  · cases h
  · rename_i ret tp1 heq
    rcases add_acquire_cases heq with ⟨h1, h2, h3, h4⟩ | ⟨h1, h3, h4⟩
    · left
      subst h1 h3
      simp only [if_true, Option.some.injEq] at h
      exact ⟨h2, h4, h.symm⟩
    · right
      subst h1 h3
      have hne : ¬ ((-1 : Int) = 0) := by decide
      simp only [hne, if_false, Option.some.injEq] at h
      exact ⟨h4, h.symm⟩

theorem step_add_begin {s s1 : State} {func arg : Nat} {nb : Int}
    (h : step s (Action.add_begin func arg nb) = some s1) :
    (0 < s.tp.sem_queue_free ∧
      s1 = { s with tp := { s.tp with sem_queue_free := s.tp.sem_queue_free - 1 }
                    adds := s.adds ++ [AddPc.acquired func arg] }) ∨
    (nb ≠ 0 ∧ s.tp.sem_queue_free = 0 ∧ s1 = s) := by
  simp only [step] at h
  rcases begin_add_cases h with ⟨h1, _, h3⟩ | ⟨h1, h2⟩
  · exact Or.inl ⟨h1, h3⟩
  · rcases h1 with ⟨h1, h3⟩ | ⟨_, h3⟩
    · exact Or.inr ⟨h1, h3, h2⟩
    · cases h3

theorem step_add_fail {s s1 : State} {func arg : Nat}
    (h : step s (Action.add_fail func arg) = some s1) : s1 = s := by
  simp only [step] at h
  rcases begin_add_cases h with ⟨_, h2, _⟩ | ⟨_, h2⟩
  · cases h2 rfl
  · exact h2

theorem step_w_wait_fail {s s1 : State} {i : Nat}
    (h : step s (Action.w_wait_fail i) = some s1) :
    s.workers.get? i = some WorkerPc.top ∧
      s1 = { s with workers := s.workers.set i WorkerPc.waited
                    wait_failures := s.wait_failures + 1 } := by
  simp only [step, worker_wait_fails] at h
  split at h
  · rename_i heq
    simp only [Option.some.injEq] at h
    exact ⟨heq, h.symm⟩
  · cases h

theorem step_done_wait_fail {s s1 : State} (h : step s Action.done_wait_fail = some s1) :
    ∃ i, s.shutdown = DonePc.adding i ∧ i < s.tp.pool_size ∧
      s1 = { s with shutdown := DonePc.adding (i + 1)
                    done_failures := s.done_failures + 1 } := by
  simp only [step] at h
  split at h
  · rename_i i heq
    split at h
    · rename_i hi
      split at h
      · cases h
      · rename_i ret tp1 ha
        rcases add_acquire_cases ha with ⟨_, _, _, h4⟩ | ⟨_, h3, _⟩
        · cases h4 rfl
        · subst h3
          simp only [Option.some.injEq] at h
          exact ⟨i, heq, hi, h.symm⟩
    · cases h
  · cases h

theorem step_add_write {s s1 : State} {k : Nat} (h : step s (Action.add_write k) = some s1) :
    ∃ func arg, s.adds.get? k = some (AddPc.acquired func arg) ∧
      s1 = { note_write s (enqueue s.tp func arg) with
             adds := s.adds.set k (AddPc.written func arg) } := by
  simp only [step] at h
  split at h
  · rename_i func arg heq
    simp only [Option.some.injEq] at h
    exact ⟨func, arg, heq, h.symm⟩
  · cases h

theorem step_add_post {s s1 : State} {k : Nat} (h : step s (Action.add_post k) = some s1) :
    ∃ func arg, s.adds.get? k = some (AddPc.written func arg) ∧
      s1 = { s with tp := add_release s.tp
                    adds := s.adds.eraseIdx k
                    accepted := s.accepted ++ [{ func := func, arg := arg }] } := by
  simp only [step] at h
  split at h
  · rename_i func arg heq
    simp only [Option.some.injEq] at h
    exact ⟨func, arg, heq, h.symm⟩
  · cases h

theorem step_w_wait {s s1 : State} {i : Nat} (h : step s (Action.w_wait i) = some s1) :
    s.workers.get? i = some WorkerPc.top ∧ 0 < s.tp.sem_queue ∧
      s1 = { s with tp := { s.tp with sem_queue := s.tp.sem_queue - 1 }
                    workers := s.workers.set i WorkerPc.waited } := by
  simp only [step] at h
  split at h
  · rename_i heq
    split at h
    · cases h
    · rename_i tp1 hw
      obtain ⟨h1, h2⟩ := worker_wait_cases hw
      subst h2
      simp only [Option.some.injEq] at h
      exact ⟨heq, h1, h.symm⟩
  · cases h

theorem step_w_claim {s s1 : State} {i : Nat} (h : step s (Action.w_claim i) = some s1) :
    s.workers.get? i = some WorkerPc.waited ∧
      s1 = { s with tp := (worker_claim s.tp).2
                    workers := s.workers.set i (WorkerPc.claimed (worker_claim s.tp).1) } := by
  simp only [step] at h
  split at h
  · rename_i heq
    simp only [Option.some.injEq] at h
    exact ⟨heq, h.symm⟩
  · cases h

theorem step_w_load {s s1 : State} {i : Nat} (h : step s (Action.w_load i) = some s1) :
    ∃ task, s.workers.get? i = some (WorkerPc.claimed task) ∧
      s1 = { s with
             workers := s.workers.set i
               (WorkerPc.loaded (worker_load s.tp task).func (worker_load s.tp task).arg)
             underflow := s.underflow || !(s.pending task)
             pending := Function.update s.pending task false } := by
  simp only [step] at h
  split at h
  · rename_i task heq
    simp only [Option.some.injEq] at h
    exact ⟨task, heq, h.symm⟩
  · cases h

theorem step_w_post {s s1 : State} {i : Nat} (h : step s (Action.w_post i) = some s1) :
    ∃ t_func t_arg, s.workers.get? i = some (WorkerPc.loaded t_func t_arg) ∧
      s1 = { s with tp := worker_release s.tp
                    workers := s.workers.set i (WorkerPc.released t_func t_arg) } := by
  simp only [step] at h
  split at h
  · rename_i t_func t_arg heq
    simp only [Option.some.injEq] at h
    exact ⟨t_func, t_arg, heq, h.symm⟩
  · cases h

theorem step_w_dispatch {s s1 : State} {i : Nat} (h : step s (Action.w_dispatch i) = some s1) :
    ∃ t_func t_arg thr, s.workers.get? i = some (WorkerPc.released t_func t_arg) ∧
      s.tp.thr_pool.get? i = some thr ∧
      ((t_func = 0 ∧
        s1 = { s with
               workers := s.workers.set i WorkerPc.exited
               handled := s.handled ++ [(i, { func := t_func, arg := t_arg })] }) ∨
       (t_func ≠ 0 ∧
        s1 = { s with
               workers := s.workers.set i WorkerPc.top
               handled := s.handled ++ [(i, { func := t_func, arg := t_arg })]
               invoked := s.invoked ++
                 [{ func := t_func, arg := t_arg, tid := thr.tid,
                    user_data := thr.user_data }] })) := by
  simp only [step] at h
  split at h
  · rename_i t_func t_arg thr hw ht
    refine ⟨t_func, t_arg, thr, hw, ht, ?_⟩
    split at h
    · rename_i hz
      simp only [Option.some.injEq] at h
      exact Or.inl ⟨hz, h.symm⟩
    · rename_i hz
      simp only [Option.some.injEq] at h
      exact Or.inr ⟨hz, h.symm⟩
  · cases h

theorem step_done_call {s s1 : State} (h : step s Action.done_call = some s1) :
    s.shutdown = DonePc.not_called ∧ s1 = { s with shutdown := DonePc.adding 0 } := by
  simp only [step] at h
  split at h
  · rename_i heq
    simp only [Option.some.injEq] at h
    exact ⟨heq, h.symm⟩
  · cases h

theorem step_done_wait {s s1 : State} (h : step s Action.done_wait = some s1) :
    ∃ i, s.shutdown = DonePc.adding i ∧ i < s.tp.pool_size ∧ 0 < s.tp.sem_queue_free ∧
      s1 = { s with tp := { s.tp with sem_queue_free := s.tp.sem_queue_free - 1 }
                    shutdown := DonePc.add_acquired i } := by
  simp only [step] at h
  split at h
  · rename_i i heq
    split at h
    · rename_i hi
      split at h
      · cases h
      · rename_i ret tp1 ha
        rcases add_acquire_cases ha with ⟨_, h2, h3, _⟩ | ⟨_, _, h2⟩
        · subst h3
          simp only [Option.some.injEq] at h
          exact ⟨i, heq, hi, h2, h.symm⟩
        · rcases h2 with ⟨h2, _⟩ | ⟨_, h2⟩
          · exact absurd rfl h2
          · cases h2
    · cases h
  · cases h

theorem step_done_write {s s1 : State} (h : step s Action.done_write = some s1) :
    ∃ i, s.shutdown = DonePc.add_acquired i ∧
      s1 = { note_write s (enqueue s.tp 0 0) with
             shutdown := DonePc.add_written i
             sentinels := s.sentinels ++ [{ func := 0, arg := 0 }] } := by
  simp only [step] at h
  split at h
  · rename_i i heq
    simp only [Option.some.injEq] at h
    exact ⟨i, heq, h.symm⟩
  · cases h

theorem step_done_post {s s1 : State} (h : step s Action.done_post = some s1) :
    ∃ i, s.shutdown = DonePc.add_written i ∧
      s1 = { s with tp := add_release s.tp, shutdown := DonePc.adding (i + 1) } := by
  simp only [step] at h
  split at h
  · rename_i i heq
    simp only [Option.some.injEq] at h
    exact ⟨i, heq, h.symm⟩
  · cases h

theorem step_done_loop_end {s s1 : State} (h : step s Action.done_loop_end = some s1) :
    ∃ i, s.shutdown = DonePc.adding i ∧ ¬ i < s.tp.pool_size ∧
      s1 = { s with shutdown := DonePc.joining 0 } := by
  simp only [step] at h
  split at h
  · rename_i i heq
    split at h
    · cases h
    · rename_i hi
      simp only [Option.some.injEq] at h
      exact ⟨i, heq, hi, h.symm⟩
  · cases h

theorem step_done_join {s s1 : State} (h : step s Action.done_join = some s1) :
    ∃ i, s.shutdown = DonePc.joining i ∧ i < s.tp.pool_size ∧
      s.workers.get? i = some WorkerPc.exited ∧
      s1 = { s with shutdown := DonePc.joining (i + 1) } := by
  simp only [step] at h
  split at h
  · rename_i i heq
    split at h
    · rename_i hi
      split at h
      · rename_i hw
        simp only [Option.some.injEq] at h
        exact ⟨i, heq, hi, hw, h.symm⟩
      · cases h
    · cases h
  · cases h

theorem step_done_free {s s1 : State} (h : step s Action.done_free = some s1) :
    ∃ i, s.shutdown = DonePc.joining i ∧ ¬ i < s.tp.pool_size ∧
      s1 = { s with shutdown := DonePc.returned } := by
  simp only [step] at h
  split at h
  · rename_i i heq
    split at h
    · cases h
    · rename_i hi
      simp only [Option.some.injEq] at h
      exact ⟨i, heq, hi, h.symm⟩
  · cases h

theorem run_invariant (Inv : State → Prop)
    (hstep : ∀ s a s1, Inv s → step s a = some s1 → Inv s1) :
    ∀ acts s s1, Inv s → run s acts = some s1 → Inv s1 := by
  intro acts
  induction acts with
  | nil =>
    intro s s1 hs h
    simp only [run, Option.some.injEq] at h
    exact h ▸ hs
  | cons a rest ih =>
    intro s s1 hs h
    simp only [run] at h
    cases hst : step s a with
    | none => rw [hst] at h; cases h
    | some s2 =>
      rw [hst] at h
      exact ih s2 s1 (hstep s a s2 hs hst) h

/-! ## Invariants of the interleaving model -/

theorem step_consts (s : State) (a : Action) (s1 : State) (h : step s a = some s1) :
    s1.tp.pool_size = s.tp.pool_size ∧ s1.tp.queue_size = s.tp.queue_size ∧
    s1.tp.thr_pool = s.tp.thr_pool ∧ s1.workers.length = s.workers.length := by
  cases a with
  | add_begin func arg nb =>
    rcases step_add_begin h with ⟨_, h1⟩ | ⟨_, _, h1⟩ <;> subst h1 <;> simp
  | add_write k => obtain ⟨_, _, _, h1⟩ := step_add_write h; subst h1; simp [note_write, enqueue]
  | add_post k => obtain ⟨_, _, _, h1⟩ := step_add_post h; subst h1; simp [add_release]
  | w_wait i => obtain ⟨_, _, h1⟩ := step_w_wait h; subst h1; simp
  | w_claim i => obtain ⟨_, h1⟩ := step_w_claim h; subst h1; simp [worker_claim]
  | w_load i => obtain ⟨_, _, h1⟩ := step_w_load h; subst h1; simp
  | w_post i => obtain ⟨_, _, _, h1⟩ := step_w_post h; subst h1; simp [worker_release]
  | w_dispatch i =>
    obtain ⟨_, _, _, _, _, h1⟩ := step_w_dispatch h
    rcases h1 with ⟨_, h1⟩ | ⟨_, h1⟩ <;> subst h1 <;> simp
  | done_call => obtain ⟨_, h1⟩ := step_done_call h; subst h1; simp
  | done_wait => obtain ⟨_, _, _, _, h1⟩ := step_done_wait h; subst h1; simp
  | done_write => obtain ⟨_, _, h1⟩ := step_done_write h; subst h1; simp [note_write, enqueue]
  | done_post => obtain ⟨_, _, h1⟩ := step_done_post h; subst h1; simp [add_release]
  | done_loop_end => obtain ⟨_, _, _, h1⟩ := step_done_loop_end h; subst h1; simp
  | done_join => obtain ⟨_, _, _, _, h1⟩ := step_done_join h; subst h1; simp
  | done_free => obtain ⟨_, _, _, h1⟩ := step_done_free h; subst h1; simp
  | add_fail func arg => rw [step_add_fail h]; simp
  | w_wait_fail i => obtain ⟨_, h1⟩ := step_w_wait_fail h; subst h1; simp
  | done_wait_fail => obtain ⟨_, _, _, h1⟩ := step_done_wait_fail h; subst h1; simp

theorem step_cursors (s : State) (a : Action) (s1 : State)
    (hinv : CursorsOk s) (h : step s a = some s1) : CursorsOk s1 := by
  obtain ⟨hrd, hwr⟩ := hinv
  unfold CursorsOk
  cases a with
  | add_begin func arg nb =>
    rcases step_add_begin h with ⟨_, h1⟩ | ⟨_, _, h1⟩ <;> subst h1 <;> exact ⟨hrd, hwr⟩
  | add_write k =>
    obtain ⟨_, _, _, h1⟩ := step_add_write h
    subst h1
    simp only [note_write, enqueue]
    refine ⟨hrd, ?_⟩
    split_ifs <;> omega
  | add_post k => obtain ⟨_, _, _, h1⟩ := step_add_post h; subst h1; exact ⟨hrd, hwr⟩
  | w_wait i => obtain ⟨_, _, h1⟩ := step_w_wait h; subst h1; exact ⟨hrd, hwr⟩
  | w_claim i =>
    obtain ⟨_, h1⟩ := step_w_claim h
    subst h1
    simp only [worker_claim]
    refine ⟨?_, hwr⟩
    split_ifs <;> omega
  | w_load i => obtain ⟨_, _, h1⟩ := step_w_load h; subst h1; exact ⟨hrd, hwr⟩
  | w_post i => obtain ⟨_, _, _, h1⟩ := step_w_post h; subst h1; exact ⟨hrd, hwr⟩
  | w_dispatch i =>
    obtain ⟨_, _, _, _, _, h1⟩ := step_w_dispatch h
    rcases h1 with ⟨_, h1⟩ | ⟨_, h1⟩ <;> subst h1 <;> exact ⟨hrd, hwr⟩
  | done_call => obtain ⟨_, h1⟩ := step_done_call h; subst h1; exact ⟨hrd, hwr⟩
  | done_wait => obtain ⟨_, _, _, _, h1⟩ := step_done_wait h; subst h1; exact ⟨hrd, hwr⟩
  | done_write =>
    obtain ⟨_, _, h1⟩ := step_done_write h
    subst h1
    simp only [note_write, enqueue]
    refine ⟨hrd, ?_⟩
    split_ifs <;> omega
  | done_post => obtain ⟨_, _, h1⟩ := step_done_post h; subst h1; exact ⟨hrd, hwr⟩
  | done_loop_end => obtain ⟨_, _, _, h1⟩ := step_done_loop_end h; subst h1; exact ⟨hrd, hwr⟩
  | done_join => obtain ⟨_, _, _, _, h1⟩ := step_done_join h; subst h1; exact ⟨hrd, hwr⟩
  | done_free => obtain ⟨_, _, _, h1⟩ := step_done_free h; subst h1; exact ⟨hrd, hwr⟩
  | add_fail func arg => rw [step_add_fail h]; exact ⟨hrd, hwr⟩
  | w_wait_fail i => obtain ⟨_, h1⟩ := step_w_wait_fail h; subst h1; exact ⟨hrd, hwr⟩
  | done_wait_fail => obtain ⟨_, _, _, h1⟩ := step_done_wait_fail h; subst h1; exact ⟨hrd, hwr⟩

theorem sum_map_set {α : Type} (f : α → Nat) (l : List α) :
    ∀ (i : Nat) (x y : α), l.get? i = some x →
      ((l.set i y).map f).sum + f x = (l.map f).sum + f y := by
  induction l with
  | nil => intro i x y h; simp at h
  | cons a rest ih =>
    intro i x y h
    cases i with
    | zero =>
      simp only [List.get?_cons_zero, Option.some.injEq] at h
      subst h
      simp only [List.set_cons_zero, List.map_cons, List.sum_cons]
      omega
    | succ j =>
      simp only [List.get?_cons_succ] at h
      have := ih j x y h
      simp only [List.set_cons_succ, List.map_cons, List.sum_cons]
      omega

theorem length_eraseIdx_of_get {α : Type} (l : List α) :
    ∀ (k : Nat) (x : α), l.get? k = some x → (l.eraseIdx k).length + 1 = l.length := by
  induction l with
  | nil => intro k x h; simp at h
  | cons a rest ih =>
    intro k x h
    cases k with
    | zero => simp
    | succ j =>
      simp only [List.get?_cons_succ] at h
      simp only [List.eraseIdx_cons_succ, List.length_cons]
      have := ih j x h
      omega

theorem step_permits (s : State) (a : Action) (s1 : State)
    (hinv : PermitsOk s) (h : step s a = some s1) : PermitsOk s1 := by
  unfold PermitsOk in_flight at hinv ⊢
  cases a with
  | add_begin func arg nb =>
    rcases step_add_begin h with ⟨_, h1⟩ | ⟨_, _, h1⟩
    · subst h1
      intro hb
      have := hinv hb
      simp only [List.length_append, List.length_singleton]
      omega
    · subst h1; exact hinv
  | add_fail func arg => rw [step_add_fail h]; exact hinv
  | add_write k =>
    obtain ⟨_, _, _, h1⟩ := step_add_write h
    subst h1
    simp only [note_write, enqueue, List.length_set]
    exact hinv
  | add_post k =>
    obtain ⟨_, _, hk, h1⟩ := step_add_post h
    subst h1
    intro hb
    have h0 := hinv hb
    have hlen := length_eraseIdx_of_get s.adds k _ hk
    have hlt : s.tp.sem_queue < SEM_VALUE_MAX := by
      simp only [add_release] at hb
      omega
    simp only [add_release, sem_post_lt hlt]
    omega
  | w_wait i =>
    obtain ⟨hw, _, h1⟩ := step_w_wait h
    subst h1
    intro hb
    have h0 := hinv hb
    have := sum_map_set held_w s.workers i _ WorkerPc.waited hw
    simp only [held_w] at this ⊢
    omega
  | w_wait_fail i =>
    obtain ⟨hw, h1⟩ := step_w_wait_fail h
    subst h1
    intro hb
    have h0 := hinv (by simp only at hb; omega)
    have := sum_map_set held_w s.workers i _ WorkerPc.waited hw
    simp only [held_w] at this ⊢
    omega
  | w_claim i =>
    obtain ⟨hw, h1⟩ := step_w_claim h
    subst h1
    intro hb
    have h0 := hinv hb
    have := sum_map_set held_w s.workers i _ (WorkerPc.claimed (worker_claim s.tp).1) hw
    simp only [held_w, worker_claim] at this ⊢
    omega
  | w_load i =>
    obtain ⟨task, hw, h1⟩ := step_w_load h
    subst h1
    intro hb
    have h0 := hinv hb
    have := sum_map_set held_w s.workers i _
      (WorkerPc.loaded (worker_load s.tp task).func (worker_load s.tp task).arg) hw
    simp only [held_w] at this ⊢
    omega
  | w_post i =>
    obtain ⟨f, x, hw, h1⟩ := step_w_post h
    subst h1
    intro hb
    have h0 := hinv hb
    have := sum_map_set held_w s.workers i _ (WorkerPc.released f x) hw
    simp only [held_w] at this
    have hlt : s.tp.sem_queue_free < SEM_VALUE_MAX := by
      simp only [worker_release] at hb
      omega
    simp only [worker_release, sem_post_lt hlt]
    omega
  | w_dispatch i =>
    obtain ⟨f, x, _, hw, _, h1⟩ := step_w_dispatch h
    rcases h1 with ⟨_, h1⟩ | ⟨_, h1⟩
    · subst h1
      intro hb
      have h0 := hinv hb
      have := sum_map_set held_w s.workers i _ WorkerPc.exited hw
      simp only [held_w] at this ⊢
      omega
    · subst h1
      intro hb
      have h0 := hinv hb
      have := sum_map_set held_w s.workers i _ WorkerPc.top hw
      simp only [held_w] at this ⊢
      omega
  | done_call =>
    obtain ⟨hd, h1⟩ := step_done_call h
    subst h1
    rw [hd] at hinv
    simpa only [held_d] using hinv
  | done_wait =>
    obtain ⟨_, hd, _, _, h1⟩ := step_done_wait h
    subst h1
    rw [hd] at hinv
    intro hb
    have h0 := hinv hb
    simp only [held_d] at h0 ⊢
    omega
  | done_wait_fail =>
    obtain ⟨_, hd, _, h1⟩ := step_done_wait_fail h
    subst h1
    rw [hd] at hinv
    simpa only [held_d] using hinv
  | done_write =>
    obtain ⟨_, hd, h1⟩ := step_done_write h
    subst h1
    rw [hd] at hinv
    intro hb
    have h0 := hinv hb
    simp only [held_d, note_write, enqueue] at h0 ⊢
    omega
  | done_post =>
    obtain ⟨_, hd, h1⟩ := step_done_post h
    subst h1
    rw [hd] at hinv
    intro hb
    have h0 := hinv hb
    simp only [held_d] at h0
    have hlt : s.tp.sem_queue < SEM_VALUE_MAX := by
      simp only [add_release] at hb
      omega
    simp only [held_d, add_release, sem_post_lt hlt]
    omega
  | done_loop_end =>
    obtain ⟨_, hd, _, h1⟩ := step_done_loop_end h
    subst h1
    rw [hd] at hinv
    simpa only [held_d] using hinv
  | done_join =>
    obtain ⟨_, hd, _, _, h1⟩ := step_done_join h
    subst h1
    rw [hd] at hinv
    simpa only [held_d] using hinv
  | done_free =>
    obtain ⟨_, hd, _, h1⟩ := step_done_free h
    subst h1
    rw [hd] at hinv
    simpa only [held_d] using hinv

theorem length_filter_singleton {α : Type} (p : α → Bool) (a : α) :
    ([a].filter p).length = if p a = true then 1 else 0 := by
  cases h : p a <;> simp [List.filter, h]

theorem exited_at_set (l : List WorkerPc) (i j : Nat) (x y : WorkerPc)
    (h : l.get? i = some x) :
    exited_at (l.set i y) j = if j = i then is_exited y else exited_at l j := by
  unfold exited_at
  have hi : i < l.length := by
    rcases Nat.lt_or_ge i l.length with hlt | hge
    · exact hlt
    · rw [List.get?_eq_none.mpr hge] at h; cases h
  by_cases hji : j = i
  · subst hji
    simp [hi]
  · have hij : i ≠ j := fun e => hji e.symm
    simp [hji, List.getElem?_set_ne hij]

theorem exit_keep {s : State} {i : Nat} {x y : WorkerPc} (hinv : ExitOk s)
    (hw : s.workers.get? i = some x) (hx : is_exited x = 0) (hy : is_exited y = 0)
    (s1 : State) (hh : s1.handled = s.handled) (hws : s1.workers = s.workers.set i y) :
    ExitOk s1 := by
  obtain ⟨h1, h2⟩ := hinv
  refine ⟨?_, ?_⟩
  · have := sum_map_set is_exited s.workers i x y hw
    unfold null_handled at h1 ⊢
    rw [hh, hws]
    omega
  · intro j
    unfold nulls_of at h2 ⊢
    rw [hh, hws, exited_at_set _ _ _ _ _ hw, h2 j]
    split_ifs with hji
    · subst hji
      simp only [exited_at, hw, hx, hy]
    · rfl

theorem exit_same {s : State} (hinv : ExitOk s)
    (s1 : State) (hh : s1.handled = s.handled) (hws : s1.workers = s.workers) :
    ExitOk s1 := by
  unfold ExitOk null_handled nulls_of at hinv ⊢
  rw [hh, hws]
  exact hinv

theorem step_exit (s : State) (a : Action) (s1 : State)
    (hinv : ExitOk s) (h : step s a = some s1) : ExitOk s1 := by
  cases a with
  | add_begin func arg nb =>
    rcases step_add_begin h with ⟨_, h1⟩ | ⟨_, _, h1⟩ <;> subst h1 <;>
      exact exit_same hinv _ rfl rfl
  | add_write k => obtain ⟨_, _, _, h1⟩ := step_add_write h; subst h1; exact exit_same hinv _ rfl rfl
  | add_post k => obtain ⟨_, _, _, h1⟩ := step_add_post h; subst h1; exact exit_same hinv _ rfl rfl
  | w_wait i =>
    obtain ⟨hw, _, h1⟩ := step_w_wait h
    subst h1
    exact exit_keep hinv hw (by rfl) (by rfl) _ rfl rfl
  | w_claim i =>
    obtain ⟨hw, h1⟩ := step_w_claim h
    subst h1
    exact exit_keep hinv hw (by rfl) (by rfl) _ rfl rfl
  | w_load i =>
    obtain ⟨_, hw, h1⟩ := step_w_load h
    subst h1
    exact exit_keep hinv hw (by rfl) (by rfl) _ rfl rfl
  | w_post i =>
    obtain ⟨_, _, hw, h1⟩ := step_w_post h
    subst h1
    exact exit_keep hinv hw (by rfl) (by rfl) _ rfl rfl
  | w_dispatch i =>
    obtain ⟨f, x, _, hw, _, h1⟩ := step_w_dispatch h
    obtain ⟨g1, g2⟩ := hinv
    rcases h1 with ⟨hf, h1⟩ | ⟨hf, h1⟩
    · subst h1
      refine ⟨?_, ?_⟩
      · have := sum_map_set is_exited s.workers i _ WorkerPc.exited hw
        simp only [is_exited] at this
        unfold null_handled at g1 ⊢
        simp only [List.filter_append, List.length_append, length_filter_singleton, hf,
          beq_self_eq_true, if_true]
        omega
      · intro j
        have gj := g2 j
        unfold nulls_of at gj ⊢
        rw [exited_at_set _ _ _ _ _ hw]
        simp only [List.filter_append, List.length_append, length_filter_singleton, hf]
        by_cases hji : j = i
        · subst hji
          simp only [exited_at, hw, is_exited] at gj
          simp [is_exited, gj]
        · have hij : ¬ i = j := fun e => hji e.symm
          simp [hji, hij, gj]
    · subst h1
      have hfb : (f == 0) = false := by simpa using hf
      refine ⟨?_, ?_⟩
      · have := sum_map_set is_exited s.workers i _ WorkerPc.top hw
        simp only [is_exited] at this
        unfold null_handled at g1 ⊢
        simp only [List.filter_append, List.length_append, length_filter_singleton, hfb]
        simp only [Bool.false_eq_true, if_false]
        omega
      · intro j
        have gj := g2 j
        unfold nulls_of at gj ⊢
        rw [exited_at_set _ _ _ _ _ hw]
        simp only [List.filter_append, List.length_append, length_filter_singleton, hfb,
          Bool.and_false, Bool.false_eq_true, if_false, Nat.add_zero]
        by_cases hji : j = i
        · subst hji
          simp only [exited_at, hw, is_exited] at gj
          simp [is_exited, gj]
        · simp [hji, gj]
  | done_call => obtain ⟨_, h1⟩ := step_done_call h; subst h1; exact exit_same hinv _ rfl rfl
  | done_wait => obtain ⟨_, _, _, _, h1⟩ := step_done_wait h; subst h1; exact exit_same hinv _ rfl rfl
  | done_write => obtain ⟨_, _, h1⟩ := step_done_write h; subst h1; exact exit_same hinv _ rfl rfl
  | done_post => obtain ⟨_, _, h1⟩ := step_done_post h; subst h1; exact exit_same hinv _ rfl rfl
  | done_loop_end => obtain ⟨_, _, _, h1⟩ := step_done_loop_end h; subst h1; exact exit_same hinv _ rfl rfl
  | done_join => obtain ⟨_, _, _, _, h1⟩ := step_done_join h; subst h1; exact exit_same hinv _ rfl rfl
  | done_free => obtain ⟨_, _, _, h1⟩ := step_done_free h; subst h1; exact exit_same hinv _ rfl rfl
  | add_fail func arg => rw [step_add_fail h]; exact hinv
  | w_wait_fail i =>
    obtain ⟨hw, h1⟩ := step_w_wait_fail h
    subst h1
    exact exit_keep hinv hw (by rfl) (by rfl) _ rfl rfl
  | done_wait_fail =>
    obtain ⟨_, _, _, h1⟩ := step_done_wait_fail h; subst h1; exact exit_same hinv _ rfl rfl

theorem sent_same {s : State} (hinv : SentinelsOk s) (s1 : State)
    (h1 : s1.sentinels = s.sentinels) (h2 : s1.shutdown = s.shutdown)
    (h3 : s1.tp.pool_size = s.tp.pool_size) (h4 : s1.done_failures = s.done_failures) :
    SentinelsOk s1 := by
  unfold SentinelsOk at hinv ⊢
  rw [h1, h2, h3, h4]
  exact hinv

theorem step_sentinels (s : State) (a : Action) (s1 : State)
    (hinv : SentinelsOk s) (h : step s a = some s1) : SentinelsOk s1 := by
  cases a with
  | add_begin func arg nb =>
    rcases step_add_begin h with ⟨_, h1⟩ | ⟨_, _, h1⟩ <;> subst h1 <;>
      exact sent_same hinv _ rfl rfl rfl rfl
  | add_fail func arg => rw [step_add_fail h]; exact hinv
  | add_write k =>
    obtain ⟨_, _, _, h1⟩ := step_add_write h; subst h1; exact sent_same hinv _ rfl rfl rfl rfl
  | add_post k =>
    obtain ⟨_, _, _, h1⟩ := step_add_post h; subst h1; exact sent_same hinv _ rfl rfl rfl rfl
  | w_wait i =>
    obtain ⟨_, _, h1⟩ := step_w_wait h; subst h1; exact sent_same hinv _ rfl rfl rfl rfl
  | w_wait_fail i =>
    obtain ⟨_, h1⟩ := step_w_wait_fail h; subst h1; exact sent_same hinv _ rfl rfl rfl rfl
  | w_claim i =>
    obtain ⟨_, h1⟩ := step_w_claim h; subst h1; exact sent_same hinv _ rfl rfl rfl rfl
  | w_load i =>
    obtain ⟨_, _, h1⟩ := step_w_load h; subst h1; exact sent_same hinv _ rfl rfl rfl rfl
  | w_post i =>
    obtain ⟨_, _, _, h1⟩ := step_w_post h; subst h1; exact sent_same hinv _ rfl rfl rfl rfl
  | w_dispatch i =>
    obtain ⟨_, _, _, _, _, h1⟩ := step_w_dispatch h
    rcases h1 with ⟨_, h1⟩ | ⟨_, h1⟩ <;> subst h1 <;> exact sent_same hinv _ rfl rfl rfl rfl
  | done_call =>
    obtain ⟨hd, h1⟩ := step_done_call h
    subst h1
    unfold SentinelsOk at hinv ⊢
    rw [hd] at hinv
    simp only [sent_count, DoneOk] at hinv ⊢
    exact ⟨hinv.1, hinv.2.1, Nat.zero_le _⟩
  | done_wait =>
    obtain ⟨i, hd, hi, _, h1⟩ := step_done_wait h
    subst h1
    unfold SentinelsOk at hinv ⊢
    rw [hd] at hinv
    simp only [sent_count, DoneOk] at hinv ⊢
    exact ⟨hinv.1, hinv.2.1, hi⟩
  | done_wait_fail =>
    obtain ⟨i, hd, hi, h1⟩ := step_done_wait_fail h
    subst h1
    unfold SentinelsOk at hinv ⊢
    rw [hd] at hinv
    simp only [sent_count, DoneOk] at hinv ⊢
    exact ⟨hinv.1, by omega, hi⟩
  | done_write =>
    obtain ⟨i, hd, h1⟩ := step_done_write h
    subst h1
    unfold SentinelsOk at hinv ⊢
    rw [hd] at hinv
    simp only [sent_count, DoneOk, note_write, enqueue] at hinv ⊢
    refine ⟨?_, ?_, hinv.2.2⟩
    · intro t ht
      rcases List.mem_append.mp ht with h1 | h1
      · exact hinv.1 t h1
      · exact List.mem_singleton.mp h1
    · simp only [List.length_append, List.length_singleton]
      omega
  | done_post =>
    obtain ⟨i, hd, h1⟩ := step_done_post h
    subst h1
    unfold SentinelsOk at hinv ⊢
    rw [hd] at hinv
    simp only [sent_count, DoneOk, add_release] at hinv ⊢
    exact ⟨hinv.1, hinv.2.1, hinv.2.2⟩
  | done_loop_end =>
    obtain ⟨i, hd, hi, h1⟩ := step_done_loop_end h
    subst h1
    unfold SentinelsOk at hinv ⊢
    rw [hd] at hinv
    simp only [sent_count, DoneOk] at hinv ⊢
    have : i = s.tp.pool_size := by omega
    rw [← this]
    exact ⟨hinv.1, hinv.2.1, trivial⟩
  | done_join =>
    obtain ⟨i, hd, _, _, h1⟩ := step_done_join h
    subst h1
    unfold SentinelsOk at hinv ⊢
    rw [hd] at hinv
    simp only [sent_count, DoneOk] at hinv ⊢
    exact ⟨hinv.1, hinv.2.1, trivial⟩
  | done_free =>
    obtain ⟨i, hd, _, h1⟩ := step_done_free h
    subst h1
    unfold SentinelsOk at hinv ⊢
    rw [hd] at hinv
    simp only [sent_count, DoneOk] at hinv ⊢
    exact ⟨hinv.1, hinv.2.1, trivial⟩

/-! ## The initial state -/

theorem sum_map_zero {α : Type} (f : α → Nat) (l : List α) (h : ∀ x ∈ l, f x = 0) :
    (l.map f).sum = 0 := by
  induction l with
  | nil => rfl
  | cons a rest ih =>
    simp only [List.map_cons, List.sum_cons, h a (List.mem_cons_self _ _),
      ih (fun x hx => h x (List.mem_cons_of_mem _ hx))]

theorem init_workers_mem {tp : thread_pool_s} {created : Nat → Bool} {pc : WorkerPc}
    (h : pc ∈ (init_state_of tp created).workers) : pc = WorkerPc.top ∨ pc = WorkerPc.absent := by
  simp only [init_state_of, List.mem_map] at h
  obtain ⟨i, _, hi⟩ := h
  cases hc : created i <;> simp [hc] at hi <;> simp [hi]

theorem init_invariants {P Q : Nat} {block : Nat → tp_task_t} {tp : thread_pool_s}
    (h : tp_init P Q (some block) = InitResult.pool tp) (hQ : Q ≤ SEM_VALUE_MAX)
    (created : Nat → Bool) :
    (init_state_of tp created).tp.pool_size = P ∧
    (init_state_of tp created).tp.queue_size = Q ∧
    (init_state_of tp created).workers.length = P ∧
    CursorsOk (init_state_of tp created) ∧ PermitsOk (init_state_of tp created) ∧
    ExitOk (init_state_of tp created) ∧ SentinelsOk (init_state_of tp created) := by
  obtain ⟨hP, hQ0, _, h1, h2, h3, h4, h5, _, _, h7⟩ := tp_init_pool_fields h
  have h6 := tp_init_free_of_bounded h hQ
  have hheld : ((init_state_of tp created).workers.map held_w).sum = 0 :=
    sum_map_zero _ _ (fun pc hpc => by
      rcases init_workers_mem hpc with e | e <;> rw [e] <;> rfl)
  have hex : ((init_state_of tp created).workers.map is_exited).sum = 0 :=
    sum_map_zero _ _ (fun pc hpc => by
      rcases init_workers_mem hpc with e | e <;> rw [e] <;> rfl)
  refine ⟨h1, h2, ?_, ?_, ?_, ?_, ?_⟩
  · simp [init_state_of, h7]
  · simp only [CursorsOk, init_state_of, h3, h4, h2]
    exact ⟨hQ0, hQ0⟩
  · intro _
    unfold in_flight
    rw [hheld]
    simp only [init_state_of, h5, h6, h2, held_d, List.length_nil]
    omega
  · refine ⟨?_, ?_⟩
    · unfold null_handled
      rw [hex]
      simp [init_state_of]
    · intro j
      have hn : nulls_of (init_state_of tp created) j = 0 := by simp [nulls_of, init_state_of]
      rw [hn]
      unfold exited_at
      cases hj : (init_state_of tp created).workers.get? j with
      | none => rfl
      | some pc =>
        rcases init_workers_mem (List.get?_mem hj) with e | e <;> rw [e] <;> rfl
  · simp [SentinelsOk, init_state_of, sent_count, DoneOk]

/-- Everything that holds in every state a schedule can reach from a freshly
constructed pool, whichever worker threads exist and whichever calls fail. -/
theorem reachable_invariants {P Q : Nat} {block : Nat → tp_task_t} {tp : thread_pool_s}
    (h : tp_init P Q (some block) = InitResult.pool tp) (hQ : Q ≤ SEM_VALUE_MAX)
    (created : Nat → Bool) (acts : List Action) (s : State)
    (hr : run (init_state_of tp created) acts = some s) :
    s.tp.pool_size = P ∧ s.tp.queue_size = Q ∧ s.workers.length = P ∧
    CursorsOk s ∧ PermitsOk s ∧ ExitOk s ∧ SentinelsOk s := by
  refine run_invariant
    (fun s => s.tp.pool_size = P ∧ s.tp.queue_size = Q ∧ s.workers.length = P ∧
      CursorsOk s ∧ PermitsOk s ∧ ExitOk s ∧ SentinelsOk s)
    ?_ acts (init_state_of tp created) s (init_invariants h hQ created) hr
  intro s a s1 hinv hst
  obtain ⟨i1, i2, i3, i4, i5, i6, i7⟩ := hinv
  obtain ⟨c1, c2, _, c4⟩ := step_consts s a s1 hst
  exact ⟨c1.trans i1, c2.trans i2, c4.trans i3, step_cursors s a s1 i4 hst,
    step_permits s a s1 i5 hst, step_exit s a s1 i6 hst, step_sentinels s a s1 i7 hst⟩

/-! ## Regular runs: invariants -/

theorem held_le_waits (pc : WorkerPc) : held_w pc + w_posts pc = w_waits pc := by
  cases pc <;> simp [w_posts, held_w, w_waits]

theorem run_regular_run {s s1 : State} (acts : List Action) :
    run_regular s acts = some s1 → run s acts = some s1 := by
  induction acts generalizing s with
  | nil => intro h; exact h
  | cons a rest ih =>
    intro h
    simp only [run_regular] at h
    split at h
    · cases hst : step s a with
      | none => rw [hst] at h; cases h
      | some s2 =>
        rw [hst] at h
        simp only [run, hst]
        exact ih h
    · cases h

theorem tp_add_task_nonblocking_ok (tp : thread_pool_s) (func arg : Nat) (nb : Int)
    (fails : Bool) (hnb : nb ≠ 0) (hfree : 0 < tp.sem_queue_free) :
    ∃ tp1, tp_add_task tp func arg nb fails = some (0, tp1) ∧
      tp1.sem_queue_free = tp.sem_queue_free - 1 := by
  have hne : tp.sem_queue_free ≠ 0 := by omega
  refine ⟨add_release (enqueue { tp with sem_queue_free := tp.sem_queue_free - 1 } func arg), ?_, ?_⟩
  · simp [tp_add_task, add_acquire, sem_trywait, hnb, hne]
  · simp [add_release, enqueue]

theorem tp_add_task_nonblocking_full (tp : thread_pool_s) (func arg : Nat) (nb : Int)
    (fails : Bool) (hnb : nb ≠ 0) (hfree : tp.sem_queue_free = 0) :
    tp_add_task tp func arg nb fails = some (-1, tp) := by
  cases tp
  simp only at hfree
  subst hfree
  simp [tp_add_task, add_acquire, sem_trywait, hnb]

theorem add_all_saturates (calls : List (tp_task_t × Int × Bool)) :
    ∀ tp : thread_pool_s, (∀ c ∈ calls, c.2.1 ≠ 0) → calls.length = tp.sem_queue_free + 1 →
    ∃ tp1, add_all tp calls = some (List.replicate tp.sem_queue_free 0 ++ [-1], tp1) := by
  induction calls with
  | nil => intro tp _ hlen; simp at hlen
  | cons c rest ih =>
    intro tp hnb hlen
    simp only [List.length_cons] at hlen
    have hc : c.2.1 ≠ 0 := hnb c (List.mem_cons_self _ _)
    by_cases hfree : tp.sem_queue_free = 0
    · have hrest : rest = [] := List.length_eq_zero.mp (by omega)
      subst hrest
      refine ⟨tp, ?_⟩
      simp [add_all, tp_add_task_nonblocking_full tp c.1.func c.1.arg c.2.1 c.2.2 hc hfree, hfree]
    · obtain ⟨tp1, h1, hf1⟩ :=
        tp_add_task_nonblocking_ok tp c.1.func c.1.arg c.2.1 c.2.2 hc (by omega)
      obtain ⟨tp2, h2⟩ :=
        ih tp1 (fun d hd => hnb d (List.mem_cons_of_mem _ hd)) (by omega)
      refine ⟨tp2, ?_⟩
      obtain ⟨n, hn⟩ : ∃ n, tp.sem_queue_free = n + 1 := ⟨tp.sem_queue_free - 1, by omega⟩
      rw [hn] at hf1
      simp only [Nat.add_sub_cancel] at hf1
      rw [hf1] at h2
      simp [add_all, h1, h2, hn, List.replicate_succ]

/-! ## The ring buffer under uninterrupted operations refines the bounded FIFO list -/

theorem mod_ne_of_lt {Q r k n : Nat} (hk : k < n) (hn : n < Q) :
    (r + k) % Q ≠ (r + n) % Q := by
  intro h
  have h1 : k ≡ n [MOD Q] := Nat.ModEq.add_left_cancel' r h
  have h2 : k = n := Nat.ModEq.eq_of_lt_of_lt h1 (by omega) hn
  omega

theorem wrap_eq_mod {Q c : Nat} (hc : c < Q) :
    (if c + 1 = Q then 0 else c + 1) = (c + 1) % Q := by
  split_ifs with h
  · rw [h, Nat.mod_self]
  · rw [Nat.mod_eq_of_lt (by omega)]

theorem represents_submit {Q : Nat} {tp : thread_pool_s} {items : List tp_task_t}
    (hR : Represents Q tp items) (func arg : Nat) (hfree : 0 < tp.sem_queue_free) :
    Represents Q
      (add_release (enqueue { tp with sem_queue_free := tp.sem_queue_free - 1 } func arg))
      (items ++ [{ func := func, arg := arg }]) := by
  obtain ⟨hmax, hQ, hsz, hrd, hwr, hsum, hitems⟩ := hR
  have hn : tp.sem_queue < Q := by omega
  have hocc : tp.sem_queue < SEM_VALUE_MAX := by omega
  have hpost : sem_post tp.sem_queue = tp.sem_queue + 1 := sem_post_lt hocc
  have hwrlt : tp.queue_wr_pos < Q := by rw [hwr]; exact Nat.mod_lt _ hQ
  refine ⟨hmax, hQ, hsz, hrd, ?_, ?_, ?_⟩
  · simp only [add_release, enqueue, hpost, hsz]
    rw [wrap_eq_mod hwrlt, hwr, Nat.mod_add_mod, Nat.add_assoc]
  · simp only [add_release, enqueue, hpost]
    omega
  · simp only [contents, add_release, enqueue, hpost, hsz, List.range_succ, List.map_append,
      List.map_cons, List.map_nil]
    rw [hitems]
    simp only [contents, hsz]
    congr 1
    · apply List.map_congr_left
      intro k hk
      have hk1 : k < tp.sem_queue := List.mem_range.mp hk
      have hne : (tp.queue_rd_pos + k) % Q ≠ tp.queue_wr_pos := by
        rw [hwr]
        exact mod_ne_of_lt hk1 hn
      rw [Function.update_noteq hne]
    · rw [← hwr, Function.update_same]

theorem represents_take {Q : Nat} {tp : thread_pool_s} {items : List tp_task_t}
    (hR : Represents Q tp items) (hocc : 0 < tp.sem_queue) :
    ∃ rest, items = tp.queue tp.queue_rd_pos :: rest ∧
      Represents Q
        (worker_release (worker_claim { tp with sem_queue := tp.sem_queue - 1 }).2) rest := by
  obtain ⟨hmax, hQ, hsz, hrd, hwr, hsum, hitems⟩ := hR
  obtain ⟨n, hn⟩ : ∃ n, tp.sem_queue = n + 1 := ⟨tp.sem_queue - 1, by omega⟩
  have hpost : sem_post tp.sem_queue_free = tp.sem_queue_free + 1 := sem_post_lt (by omega)
  refine ⟨(List.range n).map (fun k => tp.queue ((tp.queue_rd_pos + (k + 1)) % Q)), ?_, ?_⟩
  · rw [hitems]
    simp only [contents, hn, hsz, List.range_succ_eq_map, List.map_cons, List.map_map,
      Nat.add_zero, Nat.mod_eq_of_lt hrd]
    rfl
  · refine ⟨hmax, hQ, hsz, ?_, ?_, ?_, ?_⟩
    · simp only [worker_release, worker_claim, hsz]
      rw [wrap_eq_mod hrd]
      exact Nat.mod_lt _ hQ
    · simp only [worker_release, worker_claim, hsz, hn, Nat.add_sub_cancel]
      rw [wrap_eq_mod hrd, Nat.mod_add_mod, hwr, hn]
      congr 1
      omega
    · simp only [worker_release, worker_claim, hpost, hn, Nat.add_sub_cancel]
      omega
    · simp only [contents, worker_release, worker_claim, hsz, hn, Nat.add_sub_cancel]
      apply List.map_congr_left
      intro k _
      rw [wrap_eq_mod hrd, Nat.mod_add_mod]
      congr 2
      omega

theorem tp_add_task_room (tp : thread_pool_s) (func arg : Nat) (nb : Int)
    (hfree : 0 < tp.sem_queue_free) :
    tp_add_task tp func arg nb false =
      some (0, add_release (enqueue { tp with sem_queue_free := tp.sem_queue_free - 1 } func arg)) := by
  have hne : tp.sem_queue_free ≠ 0 := by omega
  by_cases hnb : nb = 0
  · simp [tp_add_task, add_acquire, sem_wait, hnb, hne]
  · simp [tp_add_task, add_acquire, sem_trywait, hnb, hne]

theorem tp_add_task_blocked (tp : thread_pool_s) (func arg : Nat)
    (hfree : tp.sem_queue_free = 0) : tp_add_task tp func arg 0 false = none := by
  simp [tp_add_task, add_acquire, sem_wait, hfree]

theorem worker_take_some (tp : thread_pool_s) (hocc : 0 < tp.sem_queue) :
    worker_take tp false =
      some (tp.queue tp.queue_rd_pos,
            worker_release (worker_claim { tp with sem_queue := tp.sem_queue - 1 }).2) := by
  have hne : tp.sem_queue ≠ 0 := by omega
  simp [worker_take, worker_wait, sem_wait, hne, worker_load, worker_claim]

theorem worker_take_blocked (tp : thread_pool_s) (hocc : tp.sem_queue = 0) :
    worker_take tp false = none := by
  simp [worker_take, worker_wait, sem_wait, hocc]

theorem represents_length {Q : Nat} {tp : thread_pool_s} {items : List tp_task_t}
    (hR : Represents Q tp items) : items.length = tp.sem_queue := by
  obtain ⟨_, _, _, _, _, _, hitems⟩ := hR
  rw [hitems]
  simp [contents]

theorem sim_op {Q : Nat} {tp : thread_pool_s} {items : List tp_task_t}
    (hR : Represents Q tp items) (tr : QTrace) (op : QOp) :
    (queue_op tp tr op = none → fifo_op Q items tr op = none) ∧
    (∀ tr1 tp1, queue_op tp tr op = some (tr1, tp1) →
      ∃ items1, fifo_op Q items tr op = some (tr1, items1) ∧ Represents Q tp1 items1) := by
  have hlen := represents_length hR
  have hsum : tp.sem_queue + tp.sem_queue_free = Q := hR.2.2.2.2.2.1
  cases op with
  | submit func arg nb =>
    rcases Nat.eq_zero_or_pos tp.sem_queue_free with hfree | hfree
    · have hfull : ¬ items.length < Q := by omega
      by_cases hnb : nb = 0
      · subst hnb
        simp [queue_op, fifo_op, tp_add_task_blocked tp func arg hfree, hfull]
      · simp only [queue_op, fifo_op, tp_add_task_nonblocking_full tp func arg nb false hnb hfree,
          hfull, if_false, hnb, ne_eq, not_false_eq_true, if_true]
        refine ⟨fun h => by simp at h, ?_⟩
        intro tr1 tp1 h
        simp at h
        obtain ⟨h1, h2⟩ := h
        subst h1 h2
        exact ⟨items, rfl, hR⟩
    · have hroom : items.length < Q := by omega
      simp only [queue_op, fifo_op, tp_add_task_room tp func arg nb hfree, hroom, if_true]
      refine ⟨fun h => by simp at h, ?_⟩
      intro tr1 tp1 h
      simp at h
      obtain ⟨h1, h2⟩ := h
      subst h1 h2
      exact ⟨_, rfl, represents_submit hR func arg hfree⟩
  | take =>
    rcases Nat.eq_zero_or_pos tp.sem_queue with hocc | hocc
    · have hnil : items = [] := List.length_eq_zero.mp (by omega)
      subst hnil
      simp [queue_op, fifo_op, worker_take_blocked tp hocc]
    · obtain ⟨rest, hitems, hR1⟩ := represents_take hR hocc
      subst hitems
      simp only [queue_op, fifo_op, worker_take_some tp hocc]
      refine ⟨fun h => by simp at h, ?_⟩
      intro tr1 tp1 h
      simp at h
      obtain ⟨h1, h2⟩ := h
      subst h1 h2
      exact ⟨rest, rfl, hR1⟩

theorem sim_run (Q : Nat) (ops : List QOp) :
    ∀ (tp : thread_pool_s) (items : List tp_task_t) (tr : QTrace), Represents Q tp items →
    (queue_run tp tr ops = none → fifo_run Q items tr ops = none) ∧
    (∀ tr1 tp1, queue_run tp tr ops = some (tr1, tp1) →
      ∃ items1, fifo_run Q items tr ops = some (tr1, items1) ∧ Represents Q tp1 items1) := by
  induction ops with
  | nil =>
    intro tp items tr hR
    refine ⟨fun h => by simp [queue_run] at h, ?_⟩
    intro tr1 tp1 h
    simp only [queue_run, Option.some.injEq, Prod.mk.injEq] at h
    obtain ⟨h1, h2⟩ := h
    subst h1 h2
    exact ⟨items, rfl, hR⟩
  | cons op rest ih =>
    intro tp items tr hR
    obtain ⟨hnone, hsome⟩ := sim_op hR tr op
    cases hq : queue_op tp tr op with
    | none =>
      simp only [queue_run, fifo_run, hq, hnone hq]
      exact ⟨fun _ => trivial, fun _ _ h => by cases h⟩
    | some r =>
      obtain ⟨tr1, tp1⟩ := r
      obtain ⟨items1, hf, hR1⟩ := hsome tr1 tp1 hq
      simp only [queue_run, fifo_run, hq, hf]
      exact ih tp1 items1 tr1 hR1

theorem fifo_op_order {Q : Nat} {items items1 : List tp_task_t} {tr tr1 : QTrace} {op : QOp}
    (h : fifo_op Q items tr op = some (tr1, items1))
    (hinv : tr.accepted = tr.handed ++ items ∧ items.length ≤ Q) :
    tr1.accepted = tr1.handed ++ items1 ∧ items1.length ≤ Q := by
  obtain ⟨h1, h2⟩ := hinv
  cases op with
  | submit func arg nb =>
    simp only [fifo_op] at h
    split_ifs at h with hroom hnb
    · simp only [Option.some.injEq, Prod.mk.injEq] at h
      obtain ⟨e1, e2⟩ := h
      subst e1 e2
      simp only [h1, List.append_assoc, List.length_append, List.length_singleton, true_and]
      omega
    · simp only [Option.some.injEq, Prod.mk.injEq] at h
      obtain ⟨e1, e2⟩ := h
      subst e1 e2
      exact ⟨h1, h2⟩
  | take =>
    cases items with
    | nil => simp [fifo_op] at h
    | cons t rest =>
      simp only [fifo_op, Option.some.injEq, Prod.mk.injEq] at h
      obtain ⟨e1, e2⟩ := h
      subst e1 e2
      simp only [h1, List.append_assoc, List.singleton_append, true_and]
      simp only [List.length_cons] at h2
      omega

theorem fifo_run_order (Q : Nat) (ops : List QOp) :
    ∀ (items items1 : List tp_task_t) (tr tr1 : QTrace),
    fifo_run Q items tr ops = some (tr1, items1) →
    tr.accepted = tr.handed ++ items ∧ items.length ≤ Q →
    tr1.accepted = tr1.handed ++ items1 ∧ items1.length ≤ Q := by
  induction ops with
  | nil =>
    intro items items1 tr tr1 h hinv
    simp only [fifo_run, Option.some.injEq, Prod.mk.injEq] at h
    obtain ⟨e1, e2⟩ := h
    subst e1 e2
    exact hinv
  | cons op rest ih =>
    intro items items1 tr tr1 h hinv
    simp only [fifo_run] at h
    cases hf : fifo_op Q items tr op with
    | none => rw [hf] at h; cases h
    | some r =>
      obtain ⟨tr2, items2⟩ := r
      rw [hf] at h
      exact ih items2 items1 tr2 tr1 h (fifo_op_order hf hinv)

theorem represents_init {P Q : Nat} {block : Nat → tp_task_t} {tp : thread_pool_s}
    (h : tp_init P Q (some block) = InitResult.pool tp) (hmax : Q ≤ SEM_VALUE_MAX) :
    Represents Q tp [] := by
  obtain ⟨_, hQ, _, _, h2, h3, h4, h5, _, _, _⟩ := tp_init_pool_fields h
  have h6 := tp_init_free_of_bounded h hmax
  refine ⟨hmax, hQ, h2, by omega, ?_, by omega, ?_⟩
  · rw [h3, h4, h5]
    simp
  · simp [contents, h5]

/-! ## Auxiliary facts for the main results -/

/-- As long as no operation is interrupted (every call of `tp_add_task` and
every consumption, lines 82-95, runs as a whole) and `Q ≤ SEM_VALUE_MAX`, the
pool suspends, accepts, refuses and hands out exactly as a bounded FIFO list
does, and the tasks handed out are the first of the tasks accepted. -/
theorem whole_operations_refine_fifo (P Q : Nat) (block : Nat → tp_task_t)
    (tp : thread_pool_s) (ops : List QOp)
    (hinit : tp_init P Q (some block) = InitResult.pool tp) (hQ : Q ≤ SEM_VALUE_MAX) :
    (queue_run tp ⟨[], []⟩ ops).map Prod.fst = (fifo_run Q [] ⟨[], []⟩ ops).map Prod.fst ∧
    ∀ tr tp1, queue_run tp ⟨[], []⟩ ops = some (tr, tp1) →
      tr.accepted = tr.handed ++ contents tp1 ∧ (contents tp1).length ≤ Q ∧
      ∀ k, k < tr.handed.length → tr.handed.get? k = tr.accepted.get? k := by
  have hR := represents_init hinit hQ
  obtain ⟨hnone, hsome⟩ := sim_run Q ops tp [] ⟨[], []⟩ hR
  refine ⟨?_, ?_⟩
  · cases hq : queue_run tp ⟨[], []⟩ ops with
    | none => rw [hnone hq]; rfl
    | some r =>
      obtain ⟨tr, tp1⟩ := r
      obtain ⟨items1, hf, _⟩ := hsome tr tp1 hq
      rw [hf]
      rfl
  · intro tr tp1 hq
    obtain ⟨items1, hf, hR1⟩ := hsome tr tp1 hq
    obtain ⟨ho, hl⟩ := fifo_run_order Q ops [] items1 ⟨[], []⟩ tr hf ⟨rfl, Nat.zero_le _⟩
    have hc : items1 = contents tp1 := hR1.2.2.2.2.2.2
    rw [← hc]
    refine ⟨ho, hl, ?_⟩
    intro k hk
    rw [ho]
    simp only [List.get?_eq_getElem?]
    rw [List.getElem?_append_left hk]

/-! ## Main results -/

set_option maxRecDepth 100000

/-- C1 (fails on the code): an accepted task is not always invoked exactly
once.  With two workers and two slots, worker 0 claims slot 0 and is preempted
before reading it; worker 1 consumes slot 1 and frees a permit; the third
submission overwrites slot 0.  All three submissions returned 0, every worker
has terminated and `tp_done` has returned, yet the task with argument 10 was
never invoked and the task with argument 12 was invoked twice. -/
theorem C1_accepted_task_lost_and_other_invoked_twice :
    ∃ tp, tp_init 2 2 (some zero_block) = InitResult.pool tp ∧
      (run (init_state tp) race_schedule).map
        (fun s => (s.accepted, s.workers, s.shutdown, s.invoked)) =
      some ([⟨7, 10⟩, ⟨7, 11⟩, ⟨7, 12⟩], [WorkerPc.exited, WorkerPc.exited], DonePc.returned,
        [⟨7, 11, 1, 0⟩, ⟨7, 12, 0, 0⟩, ⟨7, 12, 1, 0⟩]) :=
  ⟨_, rfl, by decide⟩

/-- C2 as stated fails for a queue size that does not fit the `unsigned int`
parameter of `sem_init` (line 133): `tp_init(1, 2^60 + 3)` returns a pool with
`queue_size = 2^60 + 3` whose free-count is 3, and on it the fourth
non-blocking call already returns -1.  The size computed at lines 116-118
wraps to that of the pool header, one worker record and three slots, so the
three accepted tasks are written inside the block. -/
theorem C2_fourth_call_refused_on_huge_queue :
    ∃ tp, tp_init 1 huge_queue_size (some zero_block) = InitResult.pool tp ∧
      tp.queue_size = 2 ^ 60 + 3 ∧
      malloc_size 1 huge_queue_size =
        sizeof_thread_pool_t + 1 * sizeof_tp_thread_t + 3 * sizeof_tp_task_t ∧
      (add_all tp [(⟨7, 1⟩, 1, false), (⟨7, 2⟩, 1, false), (⟨7, 3⟩, 1, false),
        (⟨7, 4⟩, 1, false)]).map Prod.fst = some [0, 0, 0, -1] :=
  ⟨_, rfl, by decide, by decide, by decide⟩

/-- C2 (amended): on a freshly constructed pool with `Q ≤ SEM_VALUE_MAX` slots
on which no worker has consumed anything, `Q + 1` consecutive non-blocking
calls of `tp_add_task` all return: the first `Q` return 0 and the last
returns -1. -/
theorem C2_nonblocking_saturation (P Q : Nat) (block : Nat → tp_task_t) (tp : thread_pool_s)
    (calls : List (tp_task_t × Int × Bool))
    (hinit : tp_init P Q (some block) = InitResult.pool tp) (hQ : Q ≤ SEM_VALUE_MAX)
    (hlen : calls.length = Q + 1) (hnb : ∀ c ∈ calls, c.2.1 ≠ 0) :
    ∃ tp1, add_all tp calls = some (List.replicate Q 0 ++ [-1], tp1) := by
  have hfree := tp_init_free_of_bounded hinit hQ
  obtain ⟨tp1, h1⟩ := add_all_saturates calls tp hnb (by omega)
  rw [hfree] at h1
  exact ⟨tp1, h1⟩

/-- Two workers, three slots, a block with arbitrary content, four
non-blocking calls: statuses 0, 0, 0, -1. -/
theorem C2_nonblocking_saturation_witness :
    ∃ tp, tp_init 2 3 (some garbage_block) = InitResult.pool tp ∧
      ∃ tp1, add_all tp [(⟨7, 1⟩, 1, false), (⟨7, 2⟩, 1, false), (⟨7, 3⟩, 5, true),
        (⟨7, 4⟩, -1, false)] = some ([0, 0, 0, -1], tp1) :=
  ⟨_, rfl, C2_nonblocking_saturation 2 3 garbage_block _
    [(⟨7, 1⟩, 1, false), (⟨7, 2⟩, 1, false), (⟨7, 3⟩, 5, true), (⟨7, 4⟩, -1, false)]
    rfl (by decide) rfl (by decide)⟩

/-- C3 (fails on the code): `tp_done` can return while an accepted task has
never run.  In the scenario of `test.c` (five workers, five slots, 32 blocking
submissions by one thread, each returning 0, then `tp_done`) there is a
schedule after which `tp_done` has returned, the task with argument 0 has not
been invoked and the task with argument 5 has been invoked twice. -/
theorem C3_tp_done_returns_with_task_not_run :
    ∃ tp, tp_init 5 5 (some zero_block) = InitResult.pool tp ∧
      (run (init_state tp) test_schedule).map
        (fun s => (s.accepted.map (fun t => t.arg), s.shutdown,
          (s.invoked.filter (fun c => c.arg == 0)).length,
          (s.invoked.filter (fun c => c.arg == 5)).length, s.invoked.length)) =
      some (List.range 32, DonePc.returned, 0, 2, 32) :=
  ⟨_, rfl, by decide⟩

/-- C4 (fails on the code): overflow and underflow are reachable.  After
`overflow_schedule` worker 0 has claimed slot 0 and not read it, the slot
still holds the unread task with argument 10, and the write cursor is 0; the
next step of the producer writes the task with argument 12 into that slot.
Worker 0 then reads argument 12, and worker 1 later claims slot 0 again and
reads a task that was already taken out. -/
theorem C4_slot_overwritten_before_it_is_read :
    ∃ tp, tp_init 2 2 (some zero_block) = InitResult.pool tp ∧
      (run (init_state tp) overflow_schedule).map
        (fun s => (s.workers.get? 0, s.tp.queue 0, s.pending 0, s.tp.queue_wr_pos, s.overflow)) =
      some (some (WorkerPc.claimed 0), ⟨7, 10⟩, true, 0, false) ∧
      (run (init_state tp) (overflow_schedule ++ [Action.add_write 0])).map
        (fun s => (s.workers.get? 0, s.tp.queue 0, s.overflow, s.underflow)) =
      some (some (WorkerPc.claimed 0), ⟨7, 12⟩, true, false) ∧
      (run (init_state tp)
          (overflow_schedule ++ [Action.add_write 0, Action.add_post 0, Action.w_load 0,
            Action.w_post 0, Action.w_dispatch 0, Action.w_wait 1, Action.w_claim 1])).map
        (fun s => (s.workers.get? 1, s.pending 0, s.underflow)) =
      some (some (WorkerPc.claimed 0), false, false) ∧
      (run (init_state tp) race_schedule).map (fun s => (s.overflow, s.underflow)) =
      some (true, true) :=
  ⟨_, rfl, by decide, by decide, by decide, by decide⟩

/-- C5 (fails on the code): the tasks handed to the workers are not the tasks
accepted, in order.  `race_schedule` respects the permits (no `sem_wait`
fails, every step is enabled); the tasks accepted are those with arguments
10, 11, 12, and the tasks that pass line 98 are those with arguments 11, 12,
12, followed by the two sentinels of `tp_done`. -/
theorem C5_handed_out_tasks_differ_from_accepted_tasks :
    ∃ tp, tp_init 2 2 (some zero_block) = InitResult.pool tp ∧
      race_schedule.all (fun a => !is_failure a) = true ∧
      (run (init_state tp) race_schedule).map
        (fun s => (s.accepted, s.handled.map Prod.snd, s.wait_failures)) =
      some ([⟨7, 10⟩, ⟨7, 11⟩, ⟨7, 12⟩],
        [⟨7, 11⟩, ⟨7, 12⟩, ⟨7, 12⟩, ⟨0, 0⟩, ⟨0, 0⟩], 0) :=
  ⟨_, rfl, by decide, by decide⟩

/-- C7: `tp_init` stops at one of its two assertions exactly when `pool_size`
or `queue_size` is zero; in particular it does so for `(0, Q)` and `(P, 0)`,
and every pool it returns has a positive number of workers and of slots. -/
theorem C7_tp_init_asserts_positive_sizes (P Q : Nat) (block : Option (Nat → tp_task_t)) :
    (tp_init P Q block = InitResult.assert_failed ↔ (P = 0 ∨ Q = 0)) ∧
    tp_init 0 Q block = InitResult.assert_failed ∧
    tp_init P 0 block = InitResult.assert_failed ∧
    ∀ tp, tp_init P Q block = InitResult.pool tp → 0 < tp.pool_size ∧ 0 < tp.queue_size := by
  refine ⟨?_, ?_, ?_, ?_⟩
  · unfold tp_init
    by_cases hP : P = 0
    · simp [hP]
    · by_cases hQ : Q = 0
      · simp [hQ]
      · cases block with
        | none => simp [hP, hQ]
        | some mem =>
          simp only [hP, hQ, if_false, or_self, iff_false]
          split
          · simp
          · split
            · simp
            · split <;> simp
  · simp [tp_init]
  · simp [tp_init]
  · intro tp h
    obtain ⟨hP, hQ, _, h1, h2, _⟩ := tp_init_pool_fields h
    omega

/-- C8 as stated fails outside the range of the machine integers involved.
`tp_init(1, 2^60 + 3)` returns a pool with `queue_size = 2^60 + 3` and
free-count 3, because `sem_init` takes an `unsigned int` (line 133); and for
`pool_size = INT_MAX + 1` the loop counter `int i` of line 139 overflows
before the last record is filled in. -/
theorem C8_free_count_truncated_on_huge_queue :
    (∃ tp, tp_init 1 huge_queue_size (some zero_block) = InitResult.pool tp ∧
      tp.queue_size = 2 ^ 60 + 3 ∧ tp.sem_queue_free = 3) ∧
    tp_init (INT_MAX + 1) 1 (some zero_block) = InitResult.undefined :=
  ⟨⟨_, rfl, by decide, by decide⟩, rfl⟩

/-- C8 (amended): for `0 < P ≤ INT_MAX`, `0 < Q ≤ SEM_VALUE_MAX` and a
successful allocation, `tp_init` returns a pool with both cursors 0,
occupied-count 0, free-count `Q`, sizes `P` and `Q`, and exactly `P` worker
records, the record at index `i` having identity `i` and a `NULL` context. -/
theorem C8_tp_init_fresh_pool (P Q : Nat) (block : Nat → tp_task_t)
    (hP : 0 < P) (hPmax : P ≤ INT_MAX) (hQ : 0 < Q) (hQmax : Q ≤ SEM_VALUE_MAX) :
    ∃ tp, tp_init P Q (some block) = InitResult.pool tp ∧
      tp.queue_rd_pos = 0 ∧ tp.queue_wr_pos = 0 ∧ tp.sem_queue = 0 ∧
      tp.sem_queue_free = Q ∧ tp.pool_size = P ∧ tp.queue_size = Q ∧
      tp.thr_pool.length = P ∧
      (∀ i, i < P → tp.thr_pool.get? i = some { tid := Int.ofNat i, user_data := 0 }) := by
  refine ⟨_, tp_init_bounded block hP hPmax hQ hQmax, rfl, rfl, rfl, rfl, rfl, rfl, ?_, ?_⟩
  · simp
  · intro i hi
    simp [hi]

/-- The pool of `test.c`: five workers, five slots. -/
theorem C8_tp_init_fresh_pool_witness :
    ∃ tp, tp_init 5 5 (some garbage_block) = InitResult.pool tp ∧
      tp.queue_rd_pos = 0 ∧ tp.queue_wr_pos = 0 ∧ tp.sem_queue = 0 ∧
      tp.sem_queue_free = 5 ∧ tp.pool_size = 5 ∧ tp.queue_size = 5 ∧
      tp.thr_pool.length = 5 ∧
      (∀ i, i < 5 → tp.thr_pool.get? i = some { tid := Int.ofNat i, user_data := 0 }) :=
  C8_tp_init_fresh_pool 5 5 garbage_block (by decide) (by decide) (by decide) (by decide)

/-- C9 as stated fails: with one slot, right after a producer has taken the
free-slot permit at line 165 the occupied-count and the free-count are both 0
while `queue_size` is 1.  Two more ways: `tp_init(1, 2^60 + 3)` returns a pool
with occupied-count 0 and free-count 3, no thread being on its way; and with
one slot, when the `sem_wait` of line 82 fails, the worker goes on without a
permit and posts a free one at line 95, after which the free-count is 2 while
`queue_size` is 1 and no thread is on its way. -/
theorem C9_counts_do_not_always_sum_to_queue_size :
    (∃ tp, tp_init 1 1 (some zero_block) = InitResult.pool tp ∧
      (run (init_state tp) [Action.add_begin 7 0 0]).map
        (fun s => (s.tp.sem_queue, s.tp.sem_queue_free, s.tp.queue_size, in_flight s)) =
      some (0, 0, 1, 1)) ∧
    (∃ tp, tp_init 1 huge_queue_size (some zero_block) = InitResult.pool tp ∧
      (tp.sem_queue, tp.sem_queue_free, in_flight (init_state tp)) = (0, 3, 0) ∧
      tp.queue_size = 2 ^ 60 + 3) ∧
    (∃ tp, tp_init 1 1 (some zero_block) = InitResult.pool tp ∧
      (run (init_state tp)
          [Action.w_wait_fail 0, Action.w_claim 0, Action.w_load 0, Action.w_post 0]).map
        (fun s => (s.tp.sem_queue, s.tp.sem_queue_free, s.tp.queue_size, in_flight s)) =
      some (0, 2, 1, 0)) :=
  ⟨⟨_, rfl, by decide⟩, ⟨_, rfl, by decide, by decide⟩, ⟨_, rfl, by decide⟩⟩

/-- C9 (amended): for `Q ≤ SEM_VALUE_MAX`, in every reachable state, whichever
calls of `pthread_create` and `sem_wait` failed, the occupied-count, the
free-count and the number of threads standing between the two semaphore
operations of a submission or of a consumption add up to `queue_size` plus the
number of calls of `sem_wait` at line 82 that failed so far, as long as that
number does not exceed `SEM_VALUE_MAX`.  Hence, when no such call has failed,
the two counts add up to at most `queue_size`, and to exactly `queue_size`
whenever no thread stands between its two semaphore operations. -/
theorem C9_permits_are_conserved (P Q : Nat) (block : Nat → tp_task_t)
    (tp : thread_pool_s) (created : Nat → Bool) (acts : List Action) (s : State)
    (hinit : tp_init P Q (some block) = InitResult.pool tp) (hQ : Q ≤ SEM_VALUE_MAX)
    (hrun : run (init_state_of tp created) acts = some s) :
    s.tp.queue_size = Q ∧
    (Q + s.wait_failures ≤ SEM_VALUE_MAX →
      s.tp.sem_queue + s.tp.sem_queue_free + in_flight s = Q + s.wait_failures) ∧
    (s.wait_failures = 0 →
      s.tp.sem_queue + s.tp.sem_queue_free + in_flight s = Q ∧
      s.tp.sem_queue + s.tp.sem_queue_free ≤ Q ∧
      (in_flight s = 0 → s.tp.sem_queue + s.tp.sem_queue_free = Q)) := by
  obtain ⟨_, hq, _, _, hp, _, _⟩ := reachable_invariants hinit hQ created acts s hrun
  unfold PermitsOk at hp
  rw [hq] at hp
  refine ⟨hq, hp, ?_⟩
  intro h0
  rw [h0] at hp
  have h1 := hp hQ
  exact ⟨h1, by omega, fun hz => by omega⟩

/-- Two slots: a producer has taken a free-slot permit and the `sem_wait` of
worker 0 has failed; the two counts and the two threads on their way add up
to 3. -/
theorem C9_permits_are_conserved_witness :
    ∃ tp s, tp_init 2 2 (some garbage_block) = InitResult.pool tp ∧
      run (init_state_of tp (fun _ => true))
        [Action.add_begin 7 0 0, Action.w_wait_fail 0] = some s ∧
      s.wait_failures = 1 ∧ in_flight s = 2 ∧
      s.tp.sem_queue + s.tp.sem_queue_free + in_flight s = 2 + s.wait_failures :=
  ⟨_, _, rfl, rfl, rfl, rfl,
    (C9_permits_are_conserved 2 2 garbage_block _ (fun _ => true)
      [Action.add_begin 7 0 0, Action.w_wait_fail 0] _ rfl (by decide) rfl).2.1 (by decide)⟩

end ThreadPool
